import Mathlib

/-!
# RegServiceServant: registry servant over a Chord DHT

A shallow embedding of `services/reg-service/servant/RegServiceServant.go`:
the start-up `InitServant`, the registration operations `Register`,
`Unregister`, `Discover` and one tick of the liveness loop `IsAliveCheck`, as
functions on an explicit servant state.

The package-level helpers `encodeProtocols`, `decodeProtocols`,
`encodeStrings`, `decodeStrings` are taken as parameters (`Codec`); the DHT
handle `dht.Chord` and the `IsAlive` RPC clients are collaborators whose
behaviour is described by an environment (`Env`). The namespace `Spec` holds
the address codec as the specification describes it.
-/

namespace RegServiceServant

/-! ## Data model -/

/-- NodeAddresses is the Go type `map[string]string` (protocol to address), kept as an
association list. -/
abbrev NodeAddresses := List (String × String)

/-- Go map indexing `node_addresses[key]`: the zero value `""` when the key is missing. -/
def NodeAddresses.index (m : NodeAddresses) (key : String) : String :=
  (List.lookup key m).getD ""

/-- The value a Go `int` (64 bits, two's complement) holds for the mathematical result `x` of
an arithmetic operation: a result outside `-2^63 .. 2^63 - 1` wraps around. -/
def wrapInt (x : Int) : Int :=
  (x + 9223372036854775808) % 18446744073709551616 - 9223372036854775808

/-- NodeStatus of the source. `FailCount` is a Go `int`, a 64-bit signed integer: the
increment `FailCount++` wraps around at the largest value (`wrapInt`). -/
structure NodeStatus where
  FailCount : Int
  Alive : Bool
deriving DecidableEq, Repr

/-- The four codec helpers of the package that the servant calls. Their source is not part
of this file; every theorem states the codec laws it relies on as hypotheses. -/
structure Codec where
  encodeProtocols : NodeAddresses → String
  decodeProtocols : String → NodeAddresses
  encodeStrings : List String → String
  decodeStrings : String → List String

/-- List codec law: decoding an encoded list gives the list back. -/
def Codec.ListRoundTrip (c : Codec) : Prop :=
  ∀ L : List String, c.decodeStrings (c.encodeStrings L) = L

/-- List codec law: the empty blob decodes to the empty list. -/
def Codec.DecodesEmpty (c : Codec) : Prop :=
  c.decodeStrings "" = []

/-- List codec law on a class `V` of tokens: decoding the blob of a list of tokens of the class
gives the list back. -/
def Codec.RoundTripOn (c : Codec) (V : String → Prop) : Prop :=
  ∀ L : List String, (∀ t, t ∈ L → V t) → c.decodeStrings (c.encodeStrings L) = L

/-- A token is stable when encoding its decoded descriptor gives the token back. -/
def Codec.Stable (c : Codec) (t : String) : Prop :=
  c.encodeProtocols (c.decodeProtocols t) = t

/-! ## The DHT collaborator -/

/-- The operations of the DHT handle, used to name a call in the environment. -/
inductive DhtOp where
  | getAllKeys
  | get (key : String)
  | set (key : String)
  | delete (key : String)
deriving DecidableEq, Repr

/-- The behaviour of the collaborators over a run: `dhtOk n op` tells whether the `n`-th DHT
call of the process, being `op`, succeeds; `isAlive n service addr` is the answer of the
`n`-th health probe of the process, sent by the client of `service` to `addr`. -/
structure Env where
  dhtOk : Nat → DhtOp → Bool
  isAlive : Nat → String → String → Bool

/-- All DHT calls succeed. -/
def Env.DhtSucceeds (env : Env) : Prop :=
  ∀ n op, env.dhtOk n op = true

/-- Modelled from the spec: the DHT handle `dht.Chord` (package `servant/dht`, not part of
the servant source). It is a key-value store with `Get`, `Set`, `Delete` and `GetAllKeys`;
`calls` counts the calls made so far. -/
structure Chord where
  store : List (String × String)
  calls : Nat
deriving DecidableEq, Repr

/-- Modelled from the spec: writing `val` under `key`, replacing the value of a present key and
appending a new key at the end. -/
def storeSet (key val : String) : List (String × String) → List (String × String)
  | [] => [(key, val)]
  | (k, v) :: rest => if k = key then (key, val) :: rest else (k, v) :: storeSet key val rest

/-- Modelled from the spec: removing `key` from the store. -/
def storeDelete (key : String) (store : List (String × String)) : List (String × String) :=
  store.filter (fun p => decide (p.1 ≠ key))

/-- Modelled from the spec: `GetAllKeys() → ([]string, error)` of the DHT handle; every key is
listed once. `none` stands for a non-nil error. -/
def Chord.GetAllKeys (env : Env) (ch : Chord) : Option (List String) × Chord :=
  (if env.dhtOk ch.calls DhtOp.getAllKeys then some (ch.store.map Prod.fst).dedup else none,
   { ch with calls := ch.calls + 1 })

/-- Modelled from the spec: `Get(key) → (blob, error)` of the DHT handle; it fails when the
key is absent or the call fails, and a failed call yields the zero value `""`. The boolean is
`err != nil`. -/
def Chord.Get (env : Env) (ch : Chord) (key : String) : (String × Bool) × Chord :=
  (if env.dhtOk ch.calls (DhtOp.get key) then
      match List.lookup key ch.store with
      | some v => (v, false)
      | none => ("", true)
    else ("", true),
   { ch with calls := ch.calls + 1 })

/-- Modelled from the spec: `Set(key, blob) → error` of the DHT handle; a failed call leaves
the store as it was. -/
def Chord.Set (env : Env) (ch : Chord) (key val : String) : Bool × Chord :=
  if env.dhtOk ch.calls (DhtOp.set key) then
    (false, { store := storeSet key val ch.store, calls := ch.calls + 1 })
  else (true, { ch with calls := ch.calls + 1 })

/-- Modelled from the spec: `Delete(key) → error` of the DHT handle; a failed call leaves the
store as it was. -/
def Chord.Delete (env : Env) (ch : Chord) (key : String) : Bool × Chord :=
  if env.dhtOk ch.calls (DhtOp.delete key) then
    (false, { store := storeDelete key ch.store, calls := ch.calls + 1 })
  else (true, { ch with calls := ch.calls + 1 })

/-! ## Servant state -/

/-- The package globals `is_first`, `chordNode`, `cacheMap` (`none` is the nil map), and the
list of health probes dispatched so far, as (service, GRPC address). -/
structure Servant where
  is_first : Bool
  chordNode : Chord
  cacheMap : Option (String → Option NodeStatus)
  probes : List (String × String)

/-- The ways the process stops: `utils.Logger.Fatalf`, an assignment to an entry of a nil map,
and a field access through a nil `*NodeStatus`. -/
inductive Crash where
  | fatal
  | nilMapWrite
  | nilDeref
deriving DecidableEq, Repr

/-- The outcome of an operation: the state it returns with, or the crash and the state at the
moment the process stopped. -/
abbrev Result := Except (Crash × Servant) Servant

/-- The state an operation ends in, returned or crashed. -/
def Result.state : Result → Servant
  | .ok st => st
  | .error (_, st) => st

/-- The operation returned (the process did not stop). -/
def Result.returned : Result → Bool
  | .ok _ => true
  | .error _ => false

/-- The crash that stopped the operation, if any. -/
def Result.crash : Result → Option Crash
  | .ok _ => none
  | .error (cr, _) => some cr

/-- The list stored for a service: the decoded value of its key, empty when the key is
absent. -/
def storedList (c : Codec) (st : Servant) (service_name : String) : List String :=
  match List.lookup service_name st.chordNode.store with
  | some v => c.decodeStrings v
  | none => []

/-- The key is present in the DHT. -/
def present (st : Servant) (service_name : String) : Bool :=
  (List.lookup service_name st.chordNode.store).isSome

/-- The list a servant function holds after `chordNode.Get(key)` followed by
`decodeStrings(enc)`. -/
def readList (c : Codec) (env : Env) (st : Servant) (key : String) : List String :=
  c.decodeStrings (Chord.Get env st.chordNode key).1.1

/-- The state after one DHT call that leaves the store as it was. -/
def Servant.afterCall (st : Servant) : Servant :=
  { st with chordNode := { st.chordNode with calls := st.chordNode.calls + 1 } }

/-- The health-cache entry of a token; a nil map has no entries. -/
def cacheGet (st : Servant) (token : String) : Option NodeStatus :=
  match st.cacheMap with
  | some cm => cm token
  | none => none

/-! ## Registry API -/

/-- The function `isInChord`: list the keys (fatal on error) and search for `key`. -/
def isInChord (env : Env) (st : Servant) (key : String) :
    Except (Crash × Servant) (Bool × Servant) :=
  match Chord.GetAllKeys env st.chordNode with
  | (none, ch) => .error (Crash.fatal, { st with chordNode := ch })
  | (some keys, ch) => .ok (keys.any (fun item => item == key), { st with chordNode := ch })

/-- The function `Register`. -/
def Register (c : Codec) (env : Env) (st : Servant) (service_name : String)
    (addresses : NodeAddresses) : Result :=
  match isInChord env st service_name with
  | .error e => .error e
  | .ok (inChord, st1) =>
    let r : List String × Servant :=
      if inChord then
        let g := Chord.Get env st1.chordNode service_name
        (c.decodeStrings g.1.1, { st1 with chordNode := g.2 })
      else ([], st1)
    let nodes := r.1
    let st2 := r.2
    let enc_node_address := c.encodeProtocols addresses
    if nodes.length > 0 ∧ nodes.any (fun node_address => node_address == enc_node_address) then
      .ok st2
    else
      let nodes1 := nodes ++ [enc_node_address]
      let updated_enc := c.encodeStrings nodes1
      .ok { st2 with chordNode := (Chord.Set env st2.chordNode service_name updated_enc).2 }

/-- The search `for i, address := range lst` of `unregisterFromChord`: the first index
holding `enc_node_address`. -/
def findAddress (lst : List String) (enc_node_address : String) : Option Nat :=
  if List.indexOf enc_node_address lst < lst.length then
    some (List.indexOf enc_node_address lst)
  else none

/-- The function `unregisterFromChord`. -/
def unregisterFromChord (c : Codec) (env : Env) (st : Servant) (service_name : String)
    (addresses : NodeAddresses) : Servant :=
  let g := Chord.Get env st.chordNode service_name
  let st1 : Servant := { st with chordNode := g.2 }
  let lst := c.decodeStrings g.1.1
  if lst.length = 0 then st1
  else
    let enc_node_address := c.encodeProtocols addresses
    match findAddress lst enc_node_address with
    | none => st1
    | some i =>
      let lst1 := lst.take i ++ lst.drop (i + 1)
      if lst1.length = 0 then
        { st1 with chordNode := (Chord.Delete env st1.chordNode service_name).2 }
      else
        let updated_enc := c.encodeStrings lst1
        { st1 with chordNode := (Chord.Set env st1.chordNode service_name updated_enc).2 }

/-- The function `Unregister`: the presence check only logs. -/
def Unregister (c : Codec) (env : Env) (st : Servant) (service_name : String)
    (addresses : NodeAddresses) : Result :=
  match isInChord env st service_name with
  | .error e => .error e
  | .ok (_, st1) => .ok (unregisterFromChord c env st1 service_name addresses)

/-- What `Discover` hands back: the slice (`none` is nil) and the error (`none` is nil). -/
structure Discovered where
  list : Option (List String)
  err : Option String
deriving DecidableEq, Repr

/-- The function `Discover`. -/
def Discover (c : Codec) (env : Env) (st : Servant) (service_name : String) :
    Except (Crash × Servant) (Discovered × Servant) :=
  match isInChord env st service_name with
  | .error e => .error e
  | .ok (inChord, st1) =>
    if !inChord then
      .ok (⟨none, some ("service " ++ service_name ++ " not registered")⟩, st1)
    else
      let g := Chord.Get env st1.chordNode service_name
      let st2 : Servant := { st1 with chordNode := g.2 }
      let lst := c.decodeStrings g.1.1
      if lst.length = 0 then
        .ok (⟨some lst, some ("service not found: " ++ service_name)⟩, st2)
      else .ok (⟨some lst, none⟩, st2)

/-- The answer of a call of `Discover` that returned. -/
def discoverAnswer (r : Except (Crash × Servant) (Discovered × Servant)) : Option Discovered :=
  match r with
  | .ok (a, _) => some a
  | .error _ => none

/-- The state a call of `Discover` ends in, returned or crashed. -/
def discoverState (r : Except (Crash × Servant) (Discovered × Servant)) : Servant :=
  match r with
  | .ok (_, st) => st
  | .error (_, st) => st

/-! ## Liveness engine -/

/-- Writing an entry of the health cache. -/
def cacheSet (cm : String → Option NodeStatus) (key : String) (v : NodeStatus) :
    String → Option NodeStatus :=
  fun k => if k = key then some v else cm k

/-- The builtin `delete(cacheMap, key)`. -/
def cacheDelete (cm : String → Option NodeStatus) (key : String) :
    String → Option NodeStatus :=
  fun k => if k = key then none else cm k

/-- A Go `for` loop over a list of strings whose body may stop the process. -/
def forEach (body : Servant → String → Result) : List String → Servant → Result
  | [], st => .ok st
  | a :: rest, st =>
    match body st a with
    | .ok st1 => forEach body rest st1
    | .error e => .error e

/-- The body of `for _, enc_address := range addresses` in `IsAliveCheck`: the probe switch on
the service name (no client and `alive = false` in the default case), the creation of a
missing cache entry, and the update of the entry. -/
def probeEndpoint (c : Codec) (env : Env) (serviceName : String) (st : Servant)
    (enc_address : String) : Result :=
  let node_addresses := c.decodeProtocols enc_address
  let p : Bool × Servant :=
    if serviceName = "TestService" ∨ serviceName = "CacheService" then
      (env.isAlive st.probes.length serviceName (node_addresses.index "GRPC"),
       { st with probes := st.probes ++ [(serviceName, node_addresses.index "GRPC")] })
    else (false, st)
  let alive := p.1
  let st1 := p.2
  match st1.cacheMap with
  | none => .error (Crash.nilMapWrite, st1)
  | some cm =>
    let cm1 := if (cm enc_address).isSome then cm else cacheSet cm enc_address ⟨0, true⟩
    match cm1 enc_address with
    | none => .error (Crash.nilDeref, st1)
    | some e =>
      if !alive then
        let e1 : NodeStatus := { e with FailCount := wrapInt (e.FailCount + 1) }
        let e2 : NodeStatus := if e1.FailCount ≥ 2 then { e1 with Alive := false } else e1
        .ok { st1 with cacheMap := some (cacheSet cm1 enc_address e2) }
      else
        .ok { st1 with cacheMap := some (cacheSet cm1 enc_address ⟨0, true⟩) }

/-- The body of the eviction loop `for i := len(addresses) - 1; i >= 0; i--` at the address
`addresses[i]`. -/
def evictEndpoint (c : Codec) (env : Env) (serviceName : String) (st : Servant)
    (address : String) : Result :=
  match cacheGet st address with
  | none => .error (Crash.nilDeref, st)
  | some e =>
    if !e.Alive then
      let st1 : Servant :=
        { st with cacheMap := st.cacheMap.map (fun cm => cacheDelete cm address) }
      .ok (unregisterFromChord c env st1 serviceName (c.decodeProtocols address))
    else .ok st

/-- The body of `for _, serviceName := range services` in `IsAliveCheck`: read and decode the
list, probe every address, then evict in reverse index order. -/
def checkService (c : Codec) (env : Env) (st : Servant) (serviceName : String) : Result :=
  let g := Chord.Get env st.chordNode serviceName
  let st1 : Servant := { st with chordNode := g.2 }
  let addresses := c.decodeStrings g.1.1
  match forEach (probeEndpoint c env serviceName) addresses st1 with
  | .error e => .error e
  | .ok st2 => forEach (evictEndpoint c env serviceName) addresses.reverse st2

/-- One tick of the loop of `IsAliveCheck`: a full liveness sweep. -/
def IsAliveCheck (c : Codec) (env : Env) (st : Servant) : Result :=
  match Chord.GetAllKeys env st.chordNode with
  | (none, ch) => .error (Crash.fatal, { st with chordNode := ch })
  | (some services, ch) => forEach (checkService c env) services { st with chordNode := ch }

/-- Consecutive ticks of the loop of `IsAliveCheck`. -/
def IsAliveCheckTicks (c : Codec) (env : Env) : Nat → Servant → Result
  | 0, st => .ok st
  | n + 1, st =>
    match IsAliveCheck c env st with
    | .ok st1 => IsAliveCheckTicks c env n st1
    | .error e => .error e

/-- The value the probe switch of `IsAliveCheck` leaves in `alive`: the answer of the client
for the two known service kinds, the zero value `false` in the default case. -/
def probeAnswer (env : Env) (serviceName : String) (n : Nat) (addr : String) : Bool :=
  if serviceName = "TestService" ∨ serviceName = "CacheService" then
    env.isAlive n serviceName addr
  else false

/-- The cache entry of an address after the probe step of `IsAliveCheck`, from the value of
`alive` and the entry before (`none`: no entry, so one is created with `FailCount: 0, Alive:
true` first). -/
def probedStatus (alive : Bool) (old : Option NodeStatus) : NodeStatus :=
  if alive then ⟨0, true⟩
  else if wrapInt ((old.getD ⟨0, true⟩).FailCount + 1) ≥ 2 then
    ⟨wrapInt ((old.getD ⟨0, true⟩).FailCount + 1), false⟩
  else ⟨wrapInt ((old.getD ⟨0, true⟩).FailCount + 1), (old.getD ⟨0, true⟩).Alive⟩

/-! ## State predicates -/

/-- Every stored service list is free of duplicates. -/
def NoDuplicates (c : Codec) (st : Servant) : Prop :=
  ∀ service_name, (storedList c st service_name).Nodup

/-- The health cache is a non-nil map. -/
def CacheReady (st : Servant) : Prop :=
  st.cacheMap.isSome = true

/-- The list codec round-trips every sublist of the stored list of a service: these are the
lists that removals from that list write back. -/
def RoundTripsBelow (c : Codec) (st : Servant) (service_name : String) : Prop :=
  ∀ L : List String,
    L.Sublist (storedList c st service_name) → c.decodeStrings (c.encodeStrings L) = L

/-- Every token of every stored list belongs to the class `V`. -/
def ValidLists (c : Codec) (V : String → Prop) (st : Servant) : Prop :=
  ∀ service_name t : String, t ∈ storedList c st service_name → V t

/-- Every present service key holds a non-empty endpoint list. -/
def TwoState (c : Codec) (st : Servant) : Prop :=
  ∀ service_name, present st service_name = true → storedList c st service_name ≠ []

/-- A call into the servant: one of the three operations of the registry API or one tick of
the liveness loop. -/
inductive Op where
  | register (service_name : String) (addresses : NodeAddresses)
  | unregister (service_name : String) (addresses : NodeAddresses)
  | discover (service_name : String)
  | sweep

/-- The servant after one call; the answer of `Discover` is dropped. -/
def applyOp (c : Codec) (env : Env) (st : Servant) : Op → Result
  | Op.register service_name addresses => Register c env st service_name addresses
  | Op.unregister service_name addresses => Unregister c env st service_name addresses
  | Op.discover service_name =>
    match Discover c env st service_name with
    | .ok (_, st1) => .ok st1
    | .error e => .error e
  | Op.sweep => IsAliveCheck c env st

/-- A sequence of calls, one after the other; a crash ends the run. -/
def runOps (c : Codec) (env : Env) : List Op → Servant → Result
  | [], st => .ok st
  | op :: rest, st =>
    match applyOp c env st op with
    | .ok st1 => runOps c env rest st1
    | .error e => .error e

/-- Every health-cache entry is marked alive and counts at most one failure. -/
def CacheHealthy (st : Servant) : Prop :=
  ∀ (token : String) (e : NodeStatus), cacheGet st token = some e →
    e.Alive = true ∧ e.FailCount ≤ 1

/-- The address has a health-cache entry with `Alive = false`: it is marked for eviction. -/
def markedDead (st : Servant) (token : String) : Bool :=
  match cacheGet st token with
  | some e => !e.Alive
  | none => false

/-! ## Start-up -/

/-- Modelled from the spec: what the bootstrap calls of the DHT package (`dht.NewChord`,
`dht.JoinChord`, `IsFirst`, not part of the servant source) meet at start-up: whether each
call succeeds, the content of the ring a joining node attaches to, and the answer of
`IsFirst`. A founding call creates a new, empty ring. -/
structure Boot where
  newChordOk : Bool
  joinChordOk : Bool
  isFirstOk : Bool
  isFirstAnswer : Bool
  ring : List (String × String)

/-- The function `InitServant`, run on the package globals `g`: the founding name `root`
creates the ring and makes the health cache; any other name joins the ring of `root`; then
`is_first` is read. Every failed call is fatal. -/
def InitServant (boot : Boot) (g : Servant) (chord_name : String) : Result :=
  if chord_name = "root" then
    if boot.newChordOk then
      let g1 : Servant :=
        { g with chordNode := { store := [], calls := 0 }, cacheMap := some (fun _ => none) }
      if boot.isFirstOk then .ok { g1 with is_first := boot.isFirstAnswer }
      else .error (Crash.fatal, g1)
    else .error (Crash.fatal, g)
  else
    if boot.joinChordOk then
      let g1 : Servant := { g with chordNode := { store := boot.ring, calls := 0 } }
      if boot.isFirstOk then .ok { g1 with is_first := boot.isFirstAnswer }
      else .error (Crash.fatal, g1)
    else .error (Crash.fatal, g)

/-! ## The address codec as the specification describes it

The source of `encodeStrings`, `decodeStrings`, `encodeProtocols` and `decodeProtocols` is not
part of the servant file; these definitions follow the description of the address codec. The
list delimiter is left as a parameter. -/

namespace Spec

/-- Modelled from the spec: the body of `encodeStrings` (EncodeList), which "joins the tokens
with a second delimiter": the tokens in order with `sep` between neighbours. -/
def joinChars (sep : Char) : List (List Char) → List Char
  | [] => []
  | t :: rest =>
    match rest with
    | [] => t
    | _ :: _ => t ++ sep :: joinChars sep rest

/-- Modelled from the spec: the missing function `encodeStrings` (EncodeList). -/
def encodeStrings (sep : Char) (L : List String) : String :=
  String.mk (joinChars sep (L.map String.data))

/-- Modelled from the spec: the body of `decodeStrings` (DecodeList), the "splitting inverse":
cut at every `sep`. -/
def splitChars (sep : Char) : List Char → List Char → List String
  | [], cur => [String.mk cur.reverse]
  | ch :: rest, cur =>
    if ch = sep then String.mk cur.reverse :: splitChars sep rest []
    else splitChars sep rest (ch :: cur)

/-- Modelled from the spec: the missing function `decodeStrings` (DecodeList); "decoding an
empty/absent blob yields an empty sequence". -/
def decodeStrings (sep : Char) (b : String) : List String :=
  match b.data with
  | [] => []
  | ch :: rest => splitChars sep (ch :: rest) []

/-- Modelled from the spec: the missing function `encodeProtocols` (EncodeEndpoint), a
"marker-delimited `protocol, address` sequence" in the format `$<protocol>$<address>...`
documented at `Discover`. -/
def encodeProtocols (d : NodeAddresses) : String :=
  String.join (d.map (fun pa => "$" ++ pa.1 ++ "$" ++ pa.2))

/-- Modelled from the spec: the fields of a token taken two by two, protocol then address. -/
def pairFields : List String → NodeAddresses
  | p :: a :: rest => (p, a) :: pairFields rest
  | _ => []

/-- Modelled from the spec: the missing function `decodeProtocols` (DecodeEndpoint), the inverse
of the format `$<protocol>$<address>...`: cut the token at every marker `$`, drop the empty
field before the first marker and pair the fields. The call in the servant takes one result, so
a token that does not match the format gives the pairs read. -/
def decodeProtocols (t : String) : NodeAddresses :=
  pairFields (splitChars '$' t.data []).tail

/-- Modelled from the spec: the four codec helpers as the specification describes them, with
list delimiter `sep`. -/
def codec (sep : Char) : Codec :=
  { encodeProtocols := encodeProtocols, decodeProtocols := decodeProtocols,
    encodeStrings := encodeStrings sep, decodeStrings := decodeStrings sep }

/-- Modelled from the spec: the valid tokens of the list codec with delimiter `sep`, those
that are not empty and do not hold the delimiter. -/
abbrev validToken (sep : Char) (t : String) : Prop :=
  t ≠ "" ∧ sep ∉ t.data

end Spec

/-! ## A concrete codec

Tokens follow the format documented at `Discover`, `$<protocol>$<address>...`; lists are
written token by token, each closed by `;`, with `%` escaping `;` and `%`. It instantiates
the codec-parametric statements at concrete inputs. -/

namespace Sample

/-- Split at every `$`. -/
def splitDollar : List Char → List Char → List String
  | [], cur => [String.mk cur.reverse]
  | ch :: rest, cur =>
    if ch = '$' then String.mk cur.reverse :: splitDollar rest [] else splitDollar rest (ch :: cur)

/-- Pair up protocol and address fields. -/
def pairUp : List String → NodeAddresses
  | p :: a :: rest => (p, a) :: pairUp rest
  | _ => []

/-- Token of a descriptor. -/
def encodeProtocols (d : NodeAddresses) : String :=
  String.join (d.map (fun pa => "$" ++ pa.1 ++ "$" ++ pa.2))

/-- Descriptor of a token. -/
def decodeProtocols (t : String) : NodeAddresses :=
  pairUp (splitDollar t.data []).tail

/-- One token, escaped and closed. -/
def encTok : List Char → List Char
  | [] => [';']
  | ch :: rest => if ch = ';' ∨ ch = '%' then '%' :: ch :: encTok rest else ch :: encTok rest

/-- Scanner of a blob. -/
def decList : List Char → Bool → List Char → List String
  | [], _, _ => []
  | ch :: rest, true, cur => decList rest false (ch :: cur)
  | ch :: rest, false, cur =>
    if ch = '%' then decList rest true cur
    else if ch = ';' then String.mk cur.reverse :: decList rest false []
    else decList rest false (ch :: cur)

/-- Blob of a list. -/
def encodeStrings (L : List String) : String :=
  String.mk (L.flatMap (fun s => encTok s.data))

/-- List of a blob. -/
def decodeStrings (b : String) : List String :=
  decList b.data false []

/-- The concrete codec. -/
def codec : Codec :=
  { encodeProtocols := encodeProtocols, decodeProtocols := decodeProtocols,
    encodeStrings := encodeStrings, decodeStrings := decodeStrings }

/-- An environment in which every DHT call succeeds and every probe fails. -/
def envDown : Env := { dhtOk := fun _ _ => true, isAlive := fun _ _ _ => false }

/-- An environment in which every DHT call and every probe succeeds. -/
def envUp : Env := { dhtOk := fun _ _ => true, isAlive := fun _ _ _ => true }

/-- An environment in which `Get` fails and every other DHT call succeeds. -/
def envGetDown : Env :=
  { dhtOk := fun _ op => match op with
      | DhtOp.get _ => false
      | _ => true,
    isAlive := fun _ _ _ => true }

/-- An environment in which `Delete` fails and every other DHT call succeeds. -/
def envDeleteDown : Env :=
  { dhtOk := fun _ op => match op with
      | DhtOp.delete _ => false
      | _ => true,
    isAlive := fun _ _ _ => true }

/-- An environment in which `Set` fails, every other DHT call succeeds and every probe
fails. -/
def envSetDown : Env :=
  { dhtOk := fun _ op => match op with
      | DhtOp.set _ => false
      | _ => true,
    isAlive := fun _ _ _ => false }

/-- An environment in which every DHT call fails. -/
def envDhtDown : Env := { dhtOk := fun _ _ => false, isAlive := fun _ _ _ => true }

/-- A servant with an empty DHT and an empty health cache. -/
def fresh : Servant :=
  { is_first := true, chordNode := { store := [], calls := 0 },
    cacheMap := some (fun _ => none), probes := [] }

/-- A servant with the given DHT content and an empty health cache. -/
def withStore (store : List (String × String)) : Servant :=
  { is_first := true, chordNode := { store := store, calls := 0 },
    cacheMap := some (fun _ => none), probes := [] }

/-- The servant built, with the codec of the specification and the list delimiter `,`, by
registering the descriptors `ds` under `TestService`, running one sweep, and registering the
descriptor without protocols, whose token is empty. -/
def sweptThenEmpty (env : Env) (ds : List NodeAddresses) : Servant :=
  (Register (Spec.codec ',') env
    (IsAliveCheck (Spec.codec ',') env
      (ds.foldl (fun s d => (Register (Spec.codec ',') env s "TestService" d).state)
        fresh)).state
    "TestService" []).state

/-- The package globals of a process that has not run `InitServant`: zero values, the health
cache a nil map. -/
def unstarted : Servant :=
  { is_first := false, chordNode := { store := [], calls := 0 }, cacheMap := none, probes := [] }

/-- A start-up in which every bootstrap call succeeds and the ring of `root` holds one
endpoint for `TestService`. -/
def bootOk : Boot :=
  { newChordOk := true, joinChordOk := true, isFirstOk := true, isFirstAnswer := false,
    ring := [("TestService", "$GRPC$h1;")] }

end Sample

end RegServiceServant

namespace RegServiceServant

/-! ## The store -/

theorem lookup_cons_ite (k k1 v1 : String) (rest : List (String × String)) :
    List.lookup k ((k1, v1) :: rest) = if k = k1 then some v1 else List.lookup k rest := by
  by_cases h : k = k1
  · subst h
    simp [List.lookup]
  · have hb : (k == k1) = false := by simpa using h
    simp [List.lookup, hb, h]

theorem lookup_storeSet (key val k : String) (store : List (String × String)) :
    List.lookup k (storeSet key val store) =
      if k = key then some val else List.lookup k store := by
  induction store with
  | nil => simp [storeSet, lookup_cons_ite]
  | cons p rest ih =>
    obtain ⟨k1, v1⟩ := p
    by_cases h1 : k1 = key
    · subst h1
      by_cases h : k = k1
      · simp [storeSet, lookup_cons_ite, h]
      · simp [storeSet, lookup_cons_ite, h]
    · by_cases h : k = key
      · subst h
        have : ¬ k = k1 := fun e => h1 e.symm
        simp [storeSet, lookup_cons_ite, h1, this, ih]
      · simp [storeSet, lookup_cons_ite, h1, ih, h]

theorem lookup_storeDelete (key k : String) (store : List (String × String)) :
    List.lookup k (storeDelete key store) =
      if k = key then none else List.lookup k store := by
  induction store with
  | nil => simp [storeDelete]
  | cons p rest ih =>
    obtain ⟨k1, v1⟩ := p
    unfold storeDelete at ih ⊢
    by_cases h1 : k1 = key
    · subst h1
      by_cases h : k = k1
      · subst h
        simpa [List.filter] using ih
      · simpa [List.filter, lookup_cons_ite, h] using ih
    · by_cases h : k = key
      · subst h
        have : ¬ k = k1 := fun e => h1 e.symm
        simpa [List.filter, h1, lookup_cons_ite, this] using ih
      · simp only [List.filter, h1, lookup_cons_ite, ne_eq, not_false_eq_true, decide_True, ih, h,
          if_false]

theorem lookup_isSome_iff (k : String) (store : List (String × String)) :
    (List.lookup k store).isSome = true ↔ k ∈ store.map Prod.fst := by
  induction store with
  | nil => simp
  | cons p rest ih =>
    obtain ⟨k1, v1⟩ := p
    by_cases h : k = k1
    · simp [lookup_cons_ite, h]
    · rw [lookup_cons_ite, if_neg h, ih]
      simp [h]

theorem any_keys_eq_present (st : Servant) (key : String) :
    ((st.chordNode.store.map Prod.fst).dedup.any (fun item => item == key)) = present st key := by
  rw [Bool.eq_iff_iff]
  simp only [List.any_eq_true, beq_iff_eq, present, lookup_isSome_iff, List.mem_dedup]
  constructor
  · rintro ⟨x, hx, rfl⟩
    exact hx
  · intro h
    exact ⟨key, h, rfl⟩

/-! ## Reads and the removal search -/

theorem readList_eq (c : Codec) (env : Env) (st : Servant) (k : String) :
    readList c env st k =
      if env.dhtOk st.chordNode.calls (DhtOp.get k) = true ∧ present st k = true then
        storedList c st k
      else c.decodeStrings "" := by
  unfold readList Chord.Get storedList present
  by_cases hok : env.dhtOk st.chordNode.calls (DhtOp.get k) = true
  · simp only [hok, if_true, true_and]
    cases List.lookup k st.chordNode.store with
    | none => simp
    | some v => simp
  · simp [hok]

theorem storedList_of_absent (c : Codec) (st : Servant) (k : String)
    (h : ¬ present st k = true) : storedList c st k = [] := by
  unfold present at h
  unfold storedList
  cases hl : List.lookup k st.chordNode.store with
  | none => rfl
  | some v => simp [hl] at h

theorem present_of_mem (c : Codec) (st : Servant) (k t : String)
    (h : t ∈ storedList c st k) : present st k = true := by
  by_contra hp
  rw [storedList_of_absent c st k hp] at h
  simp at h

theorem readList_of_decodesEmpty (c : Codec) (env : Env) (hde : c.DecodesEmpty) (st : Servant)
    (k : String) :
    readList c env st k =
      if env.dhtOk st.chordNode.calls (DhtOp.get k) = true then storedList c st k else [] := by
  rw [readList_eq]
  by_cases hok : env.dhtOk st.chordNode.calls (DhtOp.get k) = true
  · by_cases hp : present st k = true
    · simp [hok, hp]
    · simp only [hok, hp, and_false, if_false, if_true, storedList_of_absent c st k hp]
      exact hde
  · simp only [hok, false_and, if_false]
    exact hde

theorem readList_afterCall (c : Codec) (env : Env) (st : Servant) (k : String) :
    readList c env st.afterCall k =
      if env.dhtOk (st.chordNode.calls + 1) (DhtOp.get k) = true ∧ present st k = true then
        storedList c st k
      else c.decodeStrings "" :=
  readList_eq c env st.afterCall k

theorem Get_store (env : Env) (ch : Chord) (k : String) :
    (Chord.Get env ch k).2.store = ch.store := rfl

theorem Get_calls (env : Env) (ch : Chord) (k : String) :
    (Chord.Get env ch k).2.calls = ch.calls + 1 := rfl

theorem Set_store (env : Env) (ch : Chord) (k v : String) :
    (Chord.Set env ch k v).2.store =
      if env.dhtOk ch.calls (DhtOp.set k) = true then storeSet k v ch.store else ch.store := by
  unfold Chord.Set
  split <;> rfl

theorem Delete_store (env : Env) (ch : Chord) (k : String) :
    (Chord.Delete env ch k).2.store =
      if env.dhtOk ch.calls (DhtOp.delete k) = true then storeDelete k ch.store
      else ch.store := by
  unfold Chord.Delete
  split <;> rfl

theorem findAddress_eq (lst : List String) (t : String) :
    findAddress lst t = if t ∈ lst then some (List.indexOf t lst) else none := by
  unfold findAddress
  by_cases h : t ∈ lst
  · simp [h, List.indexOf_lt_length.mpr h]
  · have : ¬ List.indexOf t lst < lst.length := fun hlt => h (List.indexOf_lt_length.mp hlt)
    simp [h, this]

theorem splice_indexOf (lst : List String) (t : String) :
    lst.take (List.indexOf t lst) ++ lst.drop (List.indexOf t lst + 1) = lst.erase t := by
  induction lst with
  | nil => simp
  | cons a rest ih =>
    by_cases h : a = t
    · subst h
      simp
    · have h2 : ¬ t = a := fun e => h e.symm
      rw [List.indexOf_cons_ne _ h, List.erase_cons_tail (by simpa using h)]
      simp [ih]

/-! ## What `unregisterFromChord` and `Register` do to the state -/

theorem unregisterFromChord_cacheMap (c : Codec) (env : Env) (st : Servant) (S : String)
    (d : NodeAddresses) : (unregisterFromChord c env st S d).cacheMap = st.cacheMap := by
  unfold unregisterFromChord
  simp only []
  split
  · rfl
  · split <;> [rfl; (split <;> rfl)]

theorem unregisterFromChord_probes (c : Codec) (env : Env) (st : Servant) (S : String)
    (d : NodeAddresses) : (unregisterFromChord c env st S d).probes = st.probes := by
  unfold unregisterFromChord
  simp only []
  split
  · rfl
  · split <;> [rfl; (split <;> rfl)]

/-- The store after `unregisterFromChord`, in terms of the list it read. -/
theorem unregisterFromChord_store_read (c : Codec) (env : Env) (st : Servant)
    (S : String) (d : NodeAddresses) :
    (unregisterFromChord c env st S d).chordNode.store =
      if c.encodeProtocols d ∈ readList c env st S then
        if (readList c env st S).erase (c.encodeProtocols d) = [] then
          if env.dhtOk (st.chordNode.calls + 1) (DhtOp.delete S) = true then
            storeDelete S st.chordNode.store
          else st.chordNode.store
        else
          if env.dhtOk (st.chordNode.calls + 1) (DhtOp.set S) = true then
            storeSet S (c.encodeStrings ((readList c env st S).erase (c.encodeProtocols d)))
              st.chordNode.store
          else st.chordNode.store
      else st.chordNode.store := by
  unfold unregisterFromChord
  have hr : c.decodeStrings (Chord.Get env st.chordNode S).1.1 = readList c env st S := rfl
  simp only [hr, findAddress_eq, List.length_eq_zero]
  by_cases hmem : c.encodeProtocols d ∈ readList c env st S
  · have hne : readList c env st S ≠ [] := List.ne_nil_of_mem hmem
    simp only [hmem, if_true, hne, if_false, splice_indexOf]
    by_cases he : (readList c env st S).erase (c.encodeProtocols d) = []
    · simp only [he, if_true, Delete_store, Get_calls, Get_store]
    · simp only [he, if_false, Set_store, Get_calls, Get_store]
  · simp only [hmem, if_false]
    split <;> rfl

theorem unregisterFromChord_store (c : Codec) (env : Env) (hde : c.DecodesEmpty) (st : Servant)
    (S : String) (d : NodeAddresses) :
    (unregisterFromChord c env st S d).chordNode.store =
      if env.dhtOk st.chordNode.calls (DhtOp.get S) = true ∧
          c.encodeProtocols d ∈ storedList c st S then
        if (storedList c st S).erase (c.encodeProtocols d) = [] then
          if env.dhtOk (st.chordNode.calls + 1) (DhtOp.delete S) = true then
            storeDelete S st.chordNode.store
          else st.chordNode.store
        else
          if env.dhtOk (st.chordNode.calls + 1) (DhtOp.set S) = true then
            storeSet S (c.encodeStrings ((storedList c st S).erase (c.encodeProtocols d)))
              st.chordNode.store
          else st.chordNode.store
      else st.chordNode.store := by
  rw [unregisterFromChord_store_read, readList_of_decodesEmpty c env hde]
  by_cases hok : env.dhtOk st.chordNode.calls (DhtOp.get S) = true
  · simp only [hok, if_true, true_and]
  · simp [hok]

theorem storedList_of_lookup (c : Codec) (st1 st2 : Servant) (k : String)
    (h : List.lookup k st1.chordNode.store = List.lookup k st2.chordNode.store) :
    storedList c st1 k = storedList c st2 k := by
  unfold storedList
  rw [h]

theorem storedList_of_store (c : Codec) (st1 st2 : Servant) (k : String)
    (h : st1.chordNode.store = st2.chordNode.store) :
    storedList c st1 k = storedList c st2 k :=
  storedList_of_lookup c st1 st2 k (by rw [h])

theorem lookup_unregisterFromChord_other (c : Codec) (env : Env)
    (st : Servant) (S K : String) (d : NodeAddresses) (hK : K ≠ S) :
    List.lookup K (unregisterFromChord c env st S d).chordNode.store =
      List.lookup K st.chordNode.store := by
  rw [unregisterFromChord_store_read c env]
  split
  · split
    · split
      · rw [lookup_storeDelete, if_neg hK]
      · rfl
    · split
      · rw [lookup_storeSet, if_neg hK]
      · rfl
  · rfl

theorem storedList_unregisterFromChord_other (c : Codec) (env : Env)
    (st : Servant) (S K : String) (d : NodeAddresses) (hK : K ≠ S) :
    storedList c (unregisterFromChord c env st S d) K = storedList c st K :=
  storedList_of_lookup c _ _ K (lookup_unregisterFromChord_other c env st S K d hK)

/-! ## The round trip on the lists that are written -/

theorem roundTripsBelow_of_roundTrip (c : Codec) (hrt : c.ListRoundTrip) (st : Servant)
    (K : String) : RoundTripsBelow c st K :=
  fun L _ => hrt L

theorem roundTripsBelow_of_valid (c : Codec) (V : String → Prop) (hrt : c.RoundTripOn V)
    (st : Servant) (hv : ValidLists c V st) (K : String) : RoundTripsBelow c st K :=
  fun L hL => hrt L (fun t ht => hv K t (hL.subset ht))

theorem roundTripsBelow_mono (c : Codec) (st s : Servant) (K : String)
    (hrt : RoundTripsBelow c st K)
    (hs : (storedList c s K).Sublist (storedList c st K)) : RoundTripsBelow c s K :=
  fun L hL => hrt L (hL.trans hs)

theorem roundTripsBelow_congr (c : Codec) (st s : Servant) (K : String)
    (hrt : RoundTripsBelow c st K)
    (h : s.chordNode = st.chordNode) : RoundTripsBelow c s K := by
  intro L hL
  unfold storedList at hL
  rw [h] at hL
  exact hrt L hL

theorem storedList_unregisterFromChord_self (c : Codec) (env : Env)
    (hde : c.DecodesEmpty) (st : Servant) (S : String) (hrt : RoundTripsBelow c st S)
    (d : NodeAddresses) :
    storedList c (unregisterFromChord c env st S d) S =
      if env.dhtOk st.chordNode.calls (DhtOp.get S) = true ∧
          c.encodeProtocols d ∈ storedList c st S ∧
          (if (storedList c st S).erase (c.encodeProtocols d) = [] then
              env.dhtOk (st.chordNode.calls + 1) (DhtOp.delete S)
            else env.dhtOk (st.chordNode.calls + 1) (DhtOp.set S)) = true then
        (storedList c st S).erase (c.encodeProtocols d)
      else storedList c st S := by
  have hs := unregisterFromChord_store c env hde st S d
  by_cases h1 : env.dhtOk st.chordNode.calls (DhtOp.get S) = true ∧
      c.encodeProtocols d ∈ storedList c st S
  · rw [if_pos h1] at hs
    by_cases he : (storedList c st S).erase (c.encodeProtocols d) = []
    · rw [if_pos he] at hs
      by_cases hw : env.dhtOk (st.chordNode.calls + 1) (DhtOp.delete S) = true
      · rw [if_pos hw] at hs
        rw [if_pos ⟨h1.1, h1.2, by simpa [he] using hw⟩, he]
        unfold storedList
        rw [hs, lookup_storeDelete, if_pos rfl]
      · rw [if_neg hw] at hs
        rw [if_neg (by simp [he, hw])]
        exact storedList_of_store c _ _ S hs
    · rw [if_neg he] at hs
      by_cases hw : env.dhtOk (st.chordNode.calls + 1) (DhtOp.set S) = true
      · rw [if_pos hw] at hs
        rw [if_pos ⟨h1.1, h1.2, by simpa [he] using hw⟩]
        conv_lhs => unfold storedList
        rw [hs, lookup_storeSet, if_pos rfl]
        exact hrt _ (List.erase_sublist _ _)
      · rw [if_neg hw] at hs
        rw [if_neg (by simp [he, hw])]
        exact storedList_of_store c _ _ S hs
  · rw [if_neg h1] at hs
    rw [if_neg (fun h => h1 ⟨h.1, h.2.1⟩)]
    exact storedList_of_store c _ _ S hs

theorem storedList_unregisterFromChord_ok (c : Codec) (env : Env)
    (hde : c.DecodesEmpty) (hok : env.DhtSucceeds) (st : Servant) (S : String)
    (hrt : RoundTripsBelow c st S) (d : NodeAddresses) :
    storedList c (unregisterFromChord c env st S d) S =
      (storedList c st S).erase (c.encodeProtocols d) := by
  rw [storedList_unregisterFromChord_self c env hde st S hrt]
  by_cases hmem : c.encodeProtocols d ∈ storedList c st S
  · rw [if_pos ⟨hok _ _, hmem, by split <;> exact hok _ _⟩]
  · rw [if_neg (fun h => hmem h.2.1), List.erase_of_not_mem hmem]

/-- With or without failures, `unregisterFromChord` leaves every stored list a sublist of what
it was. -/
theorem storedList_unregisterFromChord_sublist (c : Codec) (env : Env)
    (hde : c.DecodesEmpty) (st : Servant) (S : String) (hrt : RoundTripsBelow c st S)
    (K : String) (d : NodeAddresses) :
    (storedList c (unregisterFromChord c env st S d) K).Sublist (storedList c st K) := by
  by_cases hK : K = S
  · subst hK
    rw [storedList_unregisterFromChord_self c env hde st K hrt]
    split_ifs
    all_goals first
      | exact List.erase_sublist (c.encodeProtocols d) (storedList c st K)
      | exact List.Sublist.refl _
  · rw [storedList_unregisterFromChord_other c env st S K d hK]

theorem isInChord_eq (env : Env) (st : Servant) (key : String) :
    isInChord env st key =
      if env.dhtOk st.chordNode.calls DhtOp.getAllKeys = true then
        .ok (present st key, st.afterCall)
      else .error (Crash.fatal, st.afterCall) := by
  unfold isInChord Chord.GetAllKeys Servant.afterCall
  by_cases h : env.dhtOk st.chordNode.calls DhtOp.getAllKeys = true
  · simp only [h, if_true, any_keys_eq_present]
  · simp [h]

/-- The outcome of `Register`: fatal when the key listing fails; otherwise it returns, having
written `nodes` plus the new token unless the token was already among `nodes`. -/
theorem Register_eq (c : Codec) (env : Env) (st : Servant) (S : String)
    (d : NodeAddresses) :
    ∃ st1 : Servant, st1.cacheMap = st.cacheMap ∧ st1.probes = st.probes ∧
      st1.is_first = st.is_first ∧
      (if env.dhtOk st.chordNode.calls DhtOp.getAllKeys = true then
        Register c env st S d = .ok st1 ∧
        st1.chordNode.store =
          (if c.encodeProtocols d ∈
              (if present st S = true then readList c env st.afterCall S else []) then
            st.chordNode.store
          else if env.dhtOk (st.chordNode.calls + (if present st S = true then 2 else 1))
                (DhtOp.set S) = true then
              storeSet S (c.encodeStrings
                ((if present st S = true then readList c env st.afterCall S else []) ++
                  [c.encodeProtocols d])) st.chordNode.store
            else st.chordNode.store)
      else
        Register c env st S d = .error (Crash.fatal, st1) ∧
        st1.chordNode.store = st.chordNode.store) := by
  unfold Register
  rw [isInChord_eq]
  by_cases hk : env.dhtOk st.chordNode.calls DhtOp.getAllKeys = true
  · simp only [hk, if_true]
    have hr : c.decodeStrings (Chord.Get env st.afterCall.chordNode S).1.1 =
        readList c env st.afterCall S := rfl
    by_cases hp : present st S = true
    · simp only [hp, if_true, hr]
      by_cases hm : c.encodeProtocols d ∈ readList c env st.afterCall S
      · have hlen : (readList c env st.afterCall S).length > 0 := List.length_pos_of_mem hm
        have hany : (readList c env st.afterCall S).any
            (fun node_address => node_address == c.encodeProtocols d) = true := by
          simpa using hm
        simp only [hlen, hany, and_self, if_true, hm]
        refine ⟨_, ?_, ?_, ?_, rfl, ?_⟩ <;> rfl
      · have hany : ¬ (readList c env st.afterCall S).any
            (fun node_address => node_address == c.encodeProtocols d) = true := by
          simpa using hm
        simp only [hany, Bool.false_eq_true, and_false, if_false, hm]
        refine ⟨_, ?_, ?_, ?_, rfl, ?_⟩
        · rfl
        · rfl
        · rfl
        · simp only [Set_store]
          rfl
    · simp only [hp, Bool.false_eq_true, if_false, List.length_nil, gt_iff_lt,
        lt_self_iff_false, false_and, List.not_mem_nil, List.nil_append]
      refine ⟨_, ?_, ?_, ?_, rfl, ?_⟩
      · rfl
      · rfl
      · rfl
      · simp only [Set_store]
        rfl
  · simp only [hk, if_false]
    refine ⟨_, ?_, ?_, ?_, rfl, ?_⟩ <;> rfl

theorem registerNodes_ok (c : Codec) (env : Env) (hok : env.DhtSucceeds) (st : Servant)
    (S : String) :
    (if present st S = true then readList c env st.afterCall S else []) = storedList c st S := by
  by_cases hp : present st S = true
  · rw [if_pos hp, readList_afterCall, if_pos ⟨hok _ _, hp⟩]
  · rw [if_neg hp, storedList_of_absent c st S hp]

/-- With succeeding DHT calls `Register` returns, and the store is left alone when the token is
in the list and holds the list plus the token otherwise. -/
theorem Register_ok (c : Codec) (env : Env) (hok : env.DhtSucceeds) (st : Servant) (S : String)
    (d : NodeAddresses) :
    ∃ st1 : Servant, Register c env st S d = .ok st1 ∧ st1.cacheMap = st.cacheMap ∧
      st1.probes = st.probes ∧
      st1.chordNode.store =
        (if c.encodeProtocols d ∈ storedList c st S then st.chordNode.store
          else storeSet S (c.encodeStrings (storedList c st S ++ [c.encodeProtocols d]))
            st.chordNode.store) := by
  obtain ⟨st1, hc, hp, _, h⟩ := Register_eq c env st S d
  rw [if_pos (hok _ _), registerNodes_ok c env hok] at h
  refine ⟨st1, h.1, hc, hp, ?_⟩
  rw [h.2]
  split
  · rfl
  · rw [if_pos (hok _ _)]

theorem Register_ok_storedList (c : Codec) (env : Env)
    (hok : env.DhtSucceeds) (st : Servant) (S : String) (d : NodeAddresses)
    (hrt : c.encodeProtocols d ∉ storedList c st S →
      c.decodeStrings (c.encodeStrings (storedList c st S ++ [c.encodeProtocols d])) =
        storedList c st S ++ [c.encodeProtocols d]) :
    ∃ st1 : Servant, Register c env st S d = .ok st1 ∧ st1.cacheMap = st.cacheMap ∧
      st1.probes = st.probes ∧
      (storedList c st1 S =
        if c.encodeProtocols d ∈ storedList c st S then storedList c st S
        else storedList c st S ++ [c.encodeProtocols d]) ∧
      (∀ K, K ≠ S →
        List.lookup K st1.chordNode.store = List.lookup K st.chordNode.store) := by
  obtain ⟨st1, hr, hc, hp, hs⟩ := Register_ok c env hok st S d
  refine ⟨st1, hr, hc, hp, ?_, ?_⟩
  · by_cases hm : c.encodeProtocols d ∈ storedList c st S
    · rw [if_pos hm] at hs
      rw [if_pos hm]
      exact storedList_of_store c _ _ S hs
    · rw [if_neg hm] at hs
      rw [if_neg hm]
      conv_lhs => unfold storedList
      rw [hs, lookup_storeSet, if_pos rfl]
      exact hrt hm
  · intro K hK
    rw [hs]
    split
    · rfl
    · rw [lookup_storeSet, if_neg hK]

/-! ## The concrete codec satisfies the codec laws -/

theorem Sample.decList_encTok (s : List Char) (r cur : List Char) :
    Sample.decList (Sample.encTok s ++ r) false cur =
      String.mk (cur.reverse ++ s) :: Sample.decList r false [] := by
  induction s generalizing cur with
  | nil => simp [Sample.encTok, Sample.decList]
  | cons ch rest ih =>
    by_cases h1 : ch = '%'
    · subst h1
      simp [Sample.encTok, Sample.decList, ih]
    · by_cases h2 : ch = ';'
      · subst h2
        simp [Sample.encTok, Sample.decList, ih]
      · simp [Sample.encTok, Sample.decList, ih, h1, h2]

theorem Sample.codec_roundTrip : Sample.codec.ListRoundTrip := by
  intro L
  show Sample.decodeStrings (Sample.encodeStrings L) = L
  unfold Sample.decodeStrings Sample.encodeStrings
  simp only []
  induction L with
  | nil => simp [Sample.decList]
  | cons s rest ih =>
    rw [List.flatMap_cons, Sample.decList_encTok, ih]
    simp

theorem Sample.codec_decodesEmpty : Sample.codec.DecodesEmpty := by
  show Sample.decodeStrings "" = []
  rfl

theorem Sample.envUp_succeeds : Sample.envUp.DhtSucceeds := fun _ _ => rfl

theorem Sample.envDown_succeeds : Sample.envDown.DhtSucceeds := fun _ _ => rfl

/-! ## `Discover` and `Unregister` -/

theorem Discover_eq (c : Codec) (env : Env) (st : Servant) (S : String) :
    Discover c env st S =
      if env.dhtOk st.chordNode.calls DhtOp.getAllKeys = true then
        if present st S = true then
          if readList c env st.afterCall S = [] then
            .ok (⟨some (readList c env st.afterCall S), some ("service not found: " ++ S)⟩,
              st.afterCall.afterCall)
          else .ok (⟨some (readList c env st.afterCall S), none⟩, st.afterCall.afterCall)
        else .ok (⟨none, some ("service " ++ S ++ " not registered")⟩, st.afterCall)
      else .error (Crash.fatal, st.afterCall) := by
  unfold Discover
  rw [isInChord_eq]
  have hr : c.decodeStrings (Chord.Get env st.afterCall.chordNode S).1.1 =
      readList c env st.afterCall S := rfl
  by_cases hk : env.dhtOk st.chordNode.calls DhtOp.getAllKeys = true
  · simp only [hk, if_true]
    by_cases hp : present st S = true
    · simp only [hp, Bool.not_true, Bool.false_eq_true, if_false, if_true, hr,
        List.length_eq_zero]
      rfl
    · have hp2 : present st S = false := by simpa using hp
      simp [hp2]
  · simp [hk]

theorem discoverState_store (c : Codec) (env : Env) (st : Servant) (S : String) :
    (discoverState (Discover c env st S)).chordNode.store = st.chordNode.store ∧
    (discoverState (Discover c env st S)).cacheMap = st.cacheMap := by
  rw [Discover_eq]
  split_ifs <;> exact ⟨rfl, rfl⟩

theorem Discover_ok (c : Codec) (env : Env) (hok : env.DhtSucceeds) (st : Servant)
    (S : String) :
    Discover c env st S =
      if present st S = true then
        if storedList c st S = [] then
          .ok (⟨some (storedList c st S), some ("service not found: " ++ S)⟩,
            st.afterCall.afterCall)
        else .ok (⟨some (storedList c st S), none⟩, st.afterCall.afterCall)
      else .ok (⟨none, some ("service " ++ S ++ " not registered")⟩, st.afterCall) := by
  rw [Discover_eq, if_pos (hok _ _)]
  by_cases hp : present st S = true
  · have hr : readList c env st.afterCall S = storedList c st S := by
      rw [readList_afterCall, if_pos ⟨hok _ _, hp⟩]
    rw [if_pos hp, if_pos hp, hr]
  · rw [if_neg hp, if_neg hp]

theorem Unregister_eq (c : Codec) (env : Env) (st : Servant) (S : String)
    (d : NodeAddresses) :
    Unregister c env st S d =
      if env.dhtOk st.chordNode.calls DhtOp.getAllKeys = true then
        .ok (unregisterFromChord c env st.afterCall S d)
      else .error (Crash.fatal, st.afterCall) := by
  unfold Unregister
  rw [isInChord_eq]
  by_cases hk : env.dhtOk st.chordNode.calls DhtOp.getAllKeys = true
  · simp only [hk, if_true]
  · simp [hk]

/-- The stored list of the service after `unregisterFromChord`, in terms of the list read. -/
theorem storedList_unregisterFromChord_read (c : Codec) (env : Env)
    (st : Servant) (S : String) (d : NodeAddresses)
    (hrt : c.decodeStrings (c.encodeStrings ((readList c env st S).erase (c.encodeProtocols d))) =
      (readList c env st S).erase (c.encodeProtocols d)) :
    storedList c (unregisterFromChord c env st S d) S =
      if c.encodeProtocols d ∈ readList c env st S ∧
          (if (readList c env st S).erase (c.encodeProtocols d) = [] then
              env.dhtOk (st.chordNode.calls + 1) (DhtOp.delete S)
            else env.dhtOk (st.chordNode.calls + 1) (DhtOp.set S)) = true then
        (readList c env st S).erase (c.encodeProtocols d)
      else storedList c st S := by
  have hs := unregisterFromChord_store_read c env st S d
  by_cases h1 : c.encodeProtocols d ∈ readList c env st S
  · rw [if_pos h1] at hs
    by_cases he : (readList c env st S).erase (c.encodeProtocols d) = []
    · rw [if_pos he] at hs
      by_cases hw : env.dhtOk (st.chordNode.calls + 1) (DhtOp.delete S) = true
      · rw [if_pos hw] at hs
        rw [if_pos ⟨h1, by simpa [he] using hw⟩, he]
        unfold storedList
        rw [hs, lookup_storeDelete, if_pos rfl]
      · rw [if_neg hw] at hs
        rw [if_neg (by simp [he, hw])]
        exact storedList_of_store c _ _ S hs
    · rw [if_neg he] at hs
      by_cases hw : env.dhtOk (st.chordNode.calls + 1) (DhtOp.set S) = true
      · rw [if_pos hw] at hs
        rw [if_pos ⟨h1, by simpa [he] using hw⟩]
        conv_lhs => unfold storedList
        rw [hs, lookup_storeSet, if_pos rfl]
        exact hrt
      · rw [if_neg hw] at hs
        rw [if_neg (by simp [he, hw])]
        exact storedList_of_store c _ _ S hs
  · rw [if_neg h1] at hs
    rw [if_neg (fun h => h1 h.1)]
    exact storedList_of_store c _ _ S hs

/-- With succeeding DHT calls and the key present, `unregisterFromChord` stores the list
without the first occurrence of the token. -/
theorem storedList_unregisterFromChord_present (c : Codec) (env : Env)
    (hok : env.DhtSucceeds) (st : Servant) (S : String) (d : NodeAddresses)
    (hp : present st S = true)
    (hrt : c.decodeStrings (c.encodeStrings ((storedList c st S).erase (c.encodeProtocols d))) =
      (storedList c st S).erase (c.encodeProtocols d)) :
    storedList c (unregisterFromChord c env st S d) S =
      (storedList c st S).erase (c.encodeProtocols d) := by
  have hr : readList c env st S = storedList c st S := by
    rw [readList_eq, if_pos ⟨hok _ _, hp⟩]
  rw [storedList_unregisterFromChord_read c env st S d (by rw [hr]; exact hrt), hr]
  by_cases hmem : c.encodeProtocols d ∈ storedList c st S
  · rw [if_pos ⟨hmem, by split <;> exact hok _ _⟩]
  · rw [if_neg (fun h => hmem h.1), List.erase_of_not_mem hmem]

theorem present_afterCall (st : Servant) (S : String) :
    present st.afterCall S = present st S := rfl

theorem storedList_afterCall (c : Codec) (st : Servant) (S : String) :
    storedList c st.afterCall S = storedList c st S := rfl

/-! ## Registration claims -/

/-- C1 (amended): for every service name S, every descriptor d and every DHT state in which
the stored list L of S holds `encodeProtocols d` at most once and, when L does not hold it, the
list codec round-trips the list that `Register` writes (`decodeStrings (encodeStrings (L ++
[token])) = L ++ [token]`), when the DHT calls succeed, calling `Register S d` twice in a row
leaves exactly one entry equal to `encodeProtocols d` in the stored list of S, and the stored
list after the second call equals the stored list after the first call. -/
theorem C1_register_idempotent (c : Codec) (env : Env) (st : Servant) (S : String)
    (d : NodeAddresses) (hok : env.DhtSucceeds)
    (hone : (storedList c st S).count (c.encodeProtocols d) ≤ 1)
    (hrt : c.encodeProtocols d ∉ storedList c st S →
      c.decodeStrings (c.encodeStrings (storedList c st S ++ [c.encodeProtocols d])) =
        storedList c st S ++ [c.encodeProtocols d]) :
    ∃ st1 st2 : Servant, Register c env st S d = .ok st1 ∧ Register c env st1 S d = .ok st2 ∧
      (storedList c st2 S).count (c.encodeProtocols d) = 1 ∧
      storedList c st2 S = storedList c st1 S := by
  obtain ⟨st1, hr1, _, _, hl1, _⟩ := Register_ok_storedList c env hok st S d hrt
  have hmem1 : c.encodeProtocols d ∈ storedList c st1 S := by
    rw [hl1]
    split
    · assumption
    · simp
  obtain ⟨st2, hr2, _, _, hl2, _⟩ :=
    Register_ok_storedList c env hok st1 S d (fun h => absurd hmem1 h)
  rw [if_pos hmem1] at hl2
  refine ⟨st1, st2, hr1, hr2, ?_, hl2⟩
  rw [hl2, hl1]
  by_cases hm : c.encodeProtocols d ∈ storedList c st S
  · rw [if_pos hm]
    have := List.count_pos_iff.mpr hm
    omega
  · rw [if_neg hm, List.count_append, List.count_eq_zero_of_not_mem hm]
    simp

/-- C1 (instance): registering `$GRPC$h1` twice on a fresh servant, with the codec of the
specification and the list delimiter `,`. -/
theorem C1_register_idempotent_witness :
    ∃ st1 st2 : Servant,
      Register (Spec.codec ',') Sample.envUp Sample.fresh "TestService" [("GRPC", "h1")] =
        .ok st1 ∧
      Register (Spec.codec ',') Sample.envUp st1 "TestService" [("GRPC", "h1")] = .ok st2 ∧
      (storedList (Spec.codec ',') st2 "TestService").count
        ((Spec.codec ',').encodeProtocols [("GRPC", "h1")]) = 1 ∧
      storedList (Spec.codec ',') st2 "TestService" =
        storedList (Spec.codec ',') st1 "TestService" :=
  C1_register_idempotent (Spec.codec ',') Sample.envUp Sample.fresh "TestService"
    [("GRPC", "h1")] Sample.envUp_succeeds (by decide) (fun _ => by decide)

/-- C1 (as stated, refuted): in a DHT state whose list for `TestService` holds the token
`$GRPC$h1` twice, with a codec that round-trips and succeeding DHT calls, the stored list
after two calls of `Register` holds the token twice, not once. And with the list codec of the
specification, two calls of `Register` with the descriptor without protocols on a fresh
servant leave a stored list without the token: the blob of the list holding the empty token is
the empty blob. -/
theorem C1_duplicate_state_counterexample :
    Sample.codec.ListRoundTrip ∧ Sample.envUp.DhtSucceeds ∧
    (storedList Sample.codec
      (Register Sample.codec Sample.envUp
        (Register Sample.codec Sample.envUp
          (Sample.withStore [("TestService", "$GRPC$h1;$GRPC$h1;")])
          "TestService" [("GRPC", "h1")]).state
        "TestService" [("GRPC", "h1")]).state
      "TestService").count (Sample.codec.encodeProtocols [("GRPC", "h1")]) = 2 ∧
    (storedList (Spec.codec ',')
      (Register (Spec.codec ',') Sample.envUp
        (Register (Spec.codec ',') Sample.envUp Sample.fresh "TestService" []).state
        "TestService" []).state
      "TestService").count ((Spec.codec ',').encodeProtocols []) = 0 :=
  ⟨Sample.codec_roundTrip, Sample.envUp_succeeds, by decide, by decide⟩

/-- C2 (amended): when the DHT calls succeed, `Discover S` returns, and it returns an error
if and only if the key S is absent from the DHT or its stored value decodes to an empty list;
when the key is absent no list is returned (nil), and whenever the error is nil the returned
list is the decoded stored list of S and is non-empty. Whatever the outcomes of the DHT calls,
the DHT store and the health cache are the same after the call as before it. -/
theorem C2_discover_error_iff (c : Codec) (env : Env) (st : Servant) (S : String) :
    (discoverState (Discover c env st S)).chordNode.store = st.chordNode.store ∧
    (discoverState (Discover c env st S)).cacheMap = st.cacheMap ∧
    (env.DhtSucceeds →
      ∃ (r : Discovered) (st1 : Servant), Discover c env st S = .ok (r, st1) ∧
        (r.err ≠ none ↔ (present st S = false ∨ storedList c st S = [])) ∧
        (present st S = false → r.list = none) ∧
        (r.err = none → r.list = some (storedList c st S) ∧ storedList c st S ≠ [])) := by
  refine ⟨(discoverState_store c env st S).1, (discoverState_store c env st S).2, ?_⟩
  intro hok
  rw [Discover_ok c env hok]
  by_cases hp : present st S = true
  · rw [if_pos hp]
    by_cases he : storedList c st S = []
    · rw [if_pos he]
      exact ⟨_, _, rfl, by simp [he], by simp [hp], by simp⟩
    · rw [if_neg he]
      exact ⟨_, _, rfl, by simp [he, hp], by simp [hp], by simp [he]⟩
  · rw [if_neg hp]
    have hp2 : present st S = false := by simpa using hp
    exact ⟨_, _, rfl, by simp [hp2], by simp, by simp⟩

/-- C2 (instance): `Discover` on a servant holding one endpoint for `TestService`. -/
theorem C2_discover_error_iff_witness :
    ∃ (r : Discovered) (st1 : Servant),
      Discover Sample.codec Sample.envUp
        (Sample.withStore [("TestService", "$GRPC$h1;")]) "TestService" = .ok (r, st1) ∧
      (r.err ≠ none ↔
        (present (Sample.withStore [("TestService", "$GRPC$h1;")]) "TestService" = false ∨
          storedList Sample.codec (Sample.withStore [("TestService", "$GRPC$h1;")])
            "TestService" = [])) ∧
      (present (Sample.withStore [("TestService", "$GRPC$h1;")]) "TestService" = false →
        r.list = none) ∧
      (r.err = none →
        r.list = some (storedList Sample.codec
          (Sample.withStore [("TestService", "$GRPC$h1;")]) "TestService") ∧
        storedList Sample.codec (Sample.withStore [("TestService", "$GRPC$h1;")])
          "TestService" ≠ []) :=
  (C2_discover_error_iff Sample.codec Sample.envUp
    (Sample.withStore [("TestService", "$GRPC$h1;")]) "TestService").2.2 Sample.envUp_succeeds

/-- C2 (as stated, refuted): the key `TestService` is present and its stored value decodes to
the one-element list, yet with a failing `Get` call `Discover` returns an error (and an empty
list). -/
theorem C2_failed_get_counterexample :
    present (Sample.withStore [("TestService", "$GRPC$h1;")]) "TestService" = true ∧
    storedList Sample.codec (Sample.withStore [("TestService", "$GRPC$h1;")]) "TestService" =
      ["$GRPC$h1"] ∧
    discoverAnswer (Discover Sample.codec Sample.envGetDown
      (Sample.withStore [("TestService", "$GRPC$h1;")]) "TestService") =
      some ⟨some [], some "service not found: TestService"⟩ := by
  decide

/-- C6 (amended): for every service S whose stored list is exactly the one token
`encodeProtocols d`, when the DHT calls succeed, `Unregister S d` deletes the key S from the
DHT (it does not store an empty list), so a following `Discover S` returns an error and no
list rather than an empty list with no error. -/
theorem C6_unregister_last_deletes_key (c : Codec) (env : Env) (st : Servant) (S : String)
    (d : NodeAddresses) (hok : env.DhtSucceeds)
    (hL : storedList c st S = [c.encodeProtocols d]) :
    ∃ st1 : Servant, Unregister c env st S d = .ok st1 ∧
      st1.chordNode.store = storeDelete S st.chordNode.store ∧
      List.lookup S st1.chordNode.store = none ∧
      ∃ (r : Discovered) (st2 : Servant), Discover c env st1 S = .ok (r, st2) ∧
        r.list = none ∧ r.err ≠ none := by
  have hp : present st S = true := present_of_mem c st S (c.encodeProtocols d) (by simp [hL])
  have hr : readList c env st.afterCall S = [c.encodeProtocols d] := by
    rw [readList_afterCall, if_pos ⟨hok _ _, hp⟩, hL]
  have hs : (unregisterFromChord c env st.afterCall S d).chordNode.store =
      storeDelete S st.chordNode.store := by
    rw [unregisterFromChord_store_read, hr]
    simp only [List.mem_singleton, if_true, List.erase_cons_head]
    rw [if_pos (hok _ _)]
    rfl
  have hl : List.lookup S (unregisterFromChord c env st.afterCall S d).chordNode.store = none := by
    rw [hs, lookup_storeDelete, if_pos rfl]
  refine ⟨unregisterFromChord c env st.afterCall S d, ?_, hs, hl, ?_⟩
  · rw [Unregister_eq, if_pos (hok _ _)]
  · have hp1 : ¬ present (unregisterFromChord c env st.afterCall S d) S = true := by
      unfold present
      rw [hl]
      simp
    rw [Discover_ok c env hok, if_neg hp1]
    exact ⟨_, _, rfl, rfl, by simp⟩

/-- C6 (instance): unregistering the only endpoint of `TestService`. -/
theorem C6_unregister_last_deletes_key_witness :
    ∃ st1 : Servant,
      Unregister Sample.codec Sample.envUp (Sample.withStore [("TestService", "$GRPC$h1;")])
        "TestService" [("GRPC", "h1")] = .ok st1 ∧
      st1.chordNode.store = storeDelete "TestService"
        (Sample.withStore [("TestService", "$GRPC$h1;")]).chordNode.store ∧
      List.lookup "TestService" st1.chordNode.store = none ∧
      ∃ (r : Discovered) (st2 : Servant),
        Discover Sample.codec Sample.envUp st1 "TestService" = .ok (r, st2) ∧
        r.list = none ∧ r.err ≠ none :=
  C6_unregister_last_deletes_key Sample.codec Sample.envUp
    (Sample.withStore [("TestService", "$GRPC$h1;")]) "TestService" [("GRPC", "h1")]
    Sample.envUp_succeeds (by decide)

/-- C6 (as stated, refuted): the stored list of `TestService` is exactly the token of the
descriptor, the `Delete` call fails, and after `Unregister` the key is still in the DHT: the
following `Discover` returns the one-element list and no error. -/
theorem C6_failed_delete_counterexample :
    storedList Sample.codec (Sample.withStore [("TestService", "$GRPC$h1;")]) "TestService" =
      [Sample.codec.encodeProtocols [("GRPC", "h1")]] ∧
    present (Unregister Sample.codec Sample.envDeleteDown
      (Sample.withStore [("TestService", "$GRPC$h1;")]) "TestService"
        [("GRPC", "h1")]).state "TestService" = true ∧
    discoverAnswer (Discover Sample.codec Sample.envDeleteDown
      (Unregister Sample.codec Sample.envDeleteDown
        (Sample.withStore [("TestService", "$GRPC$h1;")]) "TestService"
          [("GRPC", "h1")]).state "TestService") =
      some ⟨some ["$GRPC$h1"], none⟩ := by
  decide

/-- C7 (amended): for every service S with stored list L (empty when the key is absent) and
every descriptor d whose encoding is not in L and for which the list codec round-trips L
followed by the token, after `Register S d` with succeeding DHT calls the stored list is L
followed by `encodeProtocols d`; and registering two endpoints with distinct encodings on a
fresh service, the list codec round-tripping the list of the first token and the list of both,
makes `Discover` return exactly those two encodings in registration order, with no error. -/
theorem C7_register_appends (c : Codec) (env : Env) (st : Servant) (S : String)
    (hok : env.DhtSucceeds) :
    (∀ d : NodeAddresses, c.encodeProtocols d ∉ storedList c st S →
      c.decodeStrings (c.encodeStrings (storedList c st S ++ [c.encodeProtocols d])) =
        storedList c st S ++ [c.encodeProtocols d] →
      ∃ st1 : Servant, Register c env st S d = .ok st1 ∧
        storedList c st1 S = storedList c st S ++ [c.encodeProtocols d]) ∧
    (∀ d1 d2 : NodeAddresses, present st S = false →
      c.encodeProtocols d1 ≠ c.encodeProtocols d2 →
      c.decodeStrings (c.encodeStrings [c.encodeProtocols d1]) = [c.encodeProtocols d1] →
      c.decodeStrings (c.encodeStrings [c.encodeProtocols d1, c.encodeProtocols d2]) =
        [c.encodeProtocols d1, c.encodeProtocols d2] →
      ∃ st1 st2 st3 : Servant, Register c env st S d1 = .ok st1 ∧
        Register c env st1 S d2 = .ok st2 ∧
        Discover c env st2 S =
          .ok (⟨some [c.encodeProtocols d1, c.encodeProtocols d2], none⟩, st3)) := by
  constructor
  · intro d hd hrt
    obtain ⟨st1, hr1, _, _, hl1, _⟩ := Register_ok_storedList c env hok st S d (fun _ => hrt)
    rw [if_neg hd] at hl1
    exact ⟨st1, hr1, hl1⟩
  · intro d1 d2 hp hne hrt1 hrt2
    have hL : storedList c st S = [] := storedList_of_absent c st S (by simp [hp])
    obtain ⟨st1, hr1, _, _, hl1, _⟩ := Register_ok_storedList c env hok st S d1
      (fun _ => by rw [hL]; exact hrt1)
    rw [hL, if_neg (List.not_mem_nil _), List.nil_append] at hl1
    obtain ⟨st2, hr2, _, _, hl2, _⟩ := Register_ok_storedList c env hok st1 S d2
      (fun _ => by rw [hl1]; exact hrt2)
    have hnm : c.encodeProtocols d2 ∉ storedList c st1 S := by
      rw [hl1]
      simpa using hne.symm
    rw [if_neg hnm, hl1] at hl2
    have hp2 : present st2 S = true :=
      present_of_mem c st2 S (c.encodeProtocols d1) (by simp [hl2])
    refine ⟨st1, st2, st2.afterCall.afterCall, hr1, hr2, ?_⟩
    rw [Discover_ok c env hok, if_pos hp2, hl2]
    simp

/-- C7 (instance): two registrations on the fresh service `CacheService`, with the codec of
the specification and the list delimiter `,`. -/
theorem C7_register_appends_witness :
    ∃ st1 st2 st3 : Servant,
      Register (Spec.codec ',') Sample.envUp Sample.fresh "CacheService"
        [("GRPC", "10.0.0.1:9000")] = .ok st1 ∧
      Register (Spec.codec ',') Sample.envUp st1 "CacheService"
        [("GRPC", "10.0.0.2:9000")] = .ok st2 ∧
      Discover (Spec.codec ',') Sample.envUp st2 "CacheService" =
        .ok (⟨some [(Spec.codec ',').encodeProtocols [("GRPC", "10.0.0.1:9000")],
          (Spec.codec ',').encodeProtocols [("GRPC", "10.0.0.2:9000")]], none⟩, st3) :=
  (C7_register_appends (Spec.codec ',') Sample.envUp Sample.fresh "CacheService"
    Sample.envUp_succeeds).2
    [("GRPC", "10.0.0.1:9000")] [("GRPC", "10.0.0.2:9000")] (by decide) (by decide)
    (by decide) (by decide)

/-- C7 (as stated, refuted): with the list codec of the specification and succeeding DHT
calls, `Register` of the descriptor without protocols on the fresh service `TestService`
returns and leaves the stored list empty, not the list holding the token: the blob of the list
holding the empty token is the empty blob. A following `Register` of `$GRPC$h1` then makes
`Discover` return that one encoding, not the two encodings in registration order. -/
theorem C7_empty_token_counterexample :
    Sample.envUp.DhtSucceeds ∧
    present Sample.fresh "TestService" = false ∧
    (Spec.codec ',').encodeProtocols [] ∉ storedList (Spec.codec ',') Sample.fresh "TestService" ∧
    (Register (Spec.codec ',') Sample.envUp Sample.fresh "TestService" []).returned = true ∧
    storedList (Spec.codec ',')
      (Register (Spec.codec ',') Sample.envUp Sample.fresh "TestService" []).state
      "TestService" = [] ∧
    storedList (Spec.codec ',')
      (Register (Spec.codec ',') Sample.envUp Sample.fresh "TestService" []).state
      "TestService" ≠
      storedList (Spec.codec ',') Sample.fresh "TestService" ++
        [(Spec.codec ',').encodeProtocols []] ∧
    (Spec.codec ',').encodeProtocols [] ≠ (Spec.codec ',').encodeProtocols [("GRPC", "h1")] ∧
    discoverAnswer (Discover (Spec.codec ',') Sample.envUp
      (Register (Spec.codec ',') Sample.envUp
        (Register (Spec.codec ',') Sample.envUp Sample.fresh "TestService" []).state
        "TestService" [("GRPC", "h1")]).state "TestService") =
      some ⟨some ["$GRPC$h1"], none⟩ :=
  ⟨Sample.envUp_succeeds, by decide⟩

/-- C8 (amended): for every service S whose stored list L has no duplicates, contains
`encodeProtocols d` and has at least two entries, and for which the list codec round-trips L
without that token, after `Unregister S d` with succeeding DHT calls the key is still present
and the stored list is L with that one token removed and all other tokens kept in their
original relative order. -/
theorem C8_unregister_removes_one (c : Codec) (env : Env) (st : Servant) (S : String)
    (d : NodeAddresses) (hok : env.DhtSucceeds)
    (hnd : (storedList c st S).Nodup) (hmem : c.encodeProtocols d ∈ storedList c st S)
    (hlen : 2 ≤ (storedList c st S).length)
    (hrt : c.decodeStrings (c.encodeStrings ((storedList c st S).erase (c.encodeProtocols d))) =
      (storedList c st S).erase (c.encodeProtocols d)) :
    ∃ st1 : Servant, Unregister c env st S d = .ok st1 ∧
      storedList c st1 S = (storedList c st S).filter (fun a => decide (a ≠ c.encodeProtocols d)) ∧
      storedList c st1 S = (storedList c st S).erase (c.encodeProtocols d) ∧
      c.encodeProtocols d ∉ storedList c st1 S ∧
      present st1 S = true := by
  have hp : present st S = true := present_of_mem c st S _ hmem
  have hl : storedList c (unregisterFromChord c env st.afterCall S d) S =
      (storedList c st S).erase (c.encodeProtocols d) :=
    storedList_unregisterFromChord_present c env hok st.afterCall S d hp hrt
  have hne : (storedList c st S).erase (c.encodeProtocols d) ≠ [] := by
    intro h
    have := List.length_erase_of_mem hmem
    rw [h] at this
    simp at this
    omega
  refine ⟨unregisterFromChord c env st.afterCall S d, ?_, ?_, hl, ?_, ?_⟩
  · rw [Unregister_eq, if_pos (hok _ _)]
  · rw [hl, hnd.erase_eq_filter]
    congr 1
    funext a
    by_cases ha : a = c.encodeProtocols d
    · simp [ha]
    · simp [ha, bne_iff_ne]
  · rw [hl]
    exact hnd.not_mem_erase
  · obtain ⟨x, hx⟩ := List.exists_mem_of_ne_nil _ hne
    exact present_of_mem c _ S x (by rw [hl]; exact hx)

/-- C8 (instance): unregistering the first of two endpoints of `CacheService`, with the codec
of the specification and the list delimiter `,`. -/
theorem C8_unregister_removes_one_witness :
    ∃ st1 : Servant,
      Unregister (Spec.codec ',') Sample.envUp
        (Sample.withStore [("CacheService", "$GRPC$h1,$GRPC$h2")]) "CacheService"
        [("GRPC", "h1")] = .ok st1 ∧
      storedList (Spec.codec ',') st1 "CacheService" =
        (storedList (Spec.codec ',') (Sample.withStore [("CacheService", "$GRPC$h1,$GRPC$h2")])
          "CacheService").filter
          (fun a => decide (a ≠ (Spec.codec ',').encodeProtocols [("GRPC", "h1")])) ∧
      storedList (Spec.codec ',') st1 "CacheService" =
        (storedList (Spec.codec ',') (Sample.withStore [("CacheService", "$GRPC$h1,$GRPC$h2")])
          "CacheService").erase ((Spec.codec ',').encodeProtocols [("GRPC", "h1")]) ∧
      (Spec.codec ',').encodeProtocols [("GRPC", "h1")] ∉
        storedList (Spec.codec ',') st1 "CacheService" ∧
      present st1 "CacheService" = true :=
  C8_unregister_removes_one (Spec.codec ',') Sample.envUp
    (Sample.withStore [("CacheService", "$GRPC$h1,$GRPC$h2")]) "CacheService" [("GRPC", "h1")]
    Sample.envUp_succeeds (by decide) (by decide) (by decide) (by decide)

/-- C8 (as stated, refuted): with the list codec of the specification, the stored list of
`TestService` is `$GRPC$h1` followed by the empty token (what `Register` of `$GRPC$h1` and then
of the descriptor without protocols leaves): duplicate-free, two entries, holding the token of
the descriptor. After `Unregister` of `$GRPC$h1` with succeeding DHT calls the key is present
and the stored list is empty, not the list holding the empty token. -/
theorem C8_empty_token_counterexample :
    Sample.envUp.DhtSucceeds ∧
    (Register (Spec.codec ',') Sample.envUp
      (Register (Spec.codec ',') Sample.envUp Sample.fresh "TestService" [("GRPC", "h1")]).state
      "TestService" []).state.chordNode.store = [("TestService", "$GRPC$h1,")] ∧
    storedList (Spec.codec ',') (Sample.withStore [("TestService", "$GRPC$h1,")])
      "TestService" = ["$GRPC$h1", ""] ∧
    (storedList (Spec.codec ',') (Sample.withStore [("TestService", "$GRPC$h1,")])
      "TestService").Nodup ∧
    (Spec.codec ',').encodeProtocols [("GRPC", "h1")] ∈
      storedList (Spec.codec ',') (Sample.withStore [("TestService", "$GRPC$h1,")])
        "TestService" ∧
    (Unregister (Spec.codec ',') Sample.envUp (Sample.withStore [("TestService", "$GRPC$h1,")])
      "TestService" [("GRPC", "h1")]).returned = true ∧
    present (Unregister (Spec.codec ',') Sample.envUp
      (Sample.withStore [("TestService", "$GRPC$h1,")])
      "TestService" [("GRPC", "h1")]).state "TestService" = true ∧
    storedList (Spec.codec ',') (Unregister (Spec.codec ',') Sample.envUp
      (Sample.withStore [("TestService", "$GRPC$h1,")])
      "TestService" [("GRPC", "h1")]).state "TestService" = [] ∧
    (storedList (Spec.codec ',') (Sample.withStore [("TestService", "$GRPC$h1,")])
      "TestService").erase ((Spec.codec ',').encodeProtocols [("GRPC", "h1")]) = [""] :=
  ⟨Sample.envUp_succeeds, by decide⟩

/-- C9: `Unregister S d` is a no-op on the registry state whenever the service S is
unregistered (key absent from the DHT) or S is registered but `encodeProtocols d` is not in
its list: whatever the outcomes of the DHT calls, the DHT store (every key and its value) and
the health cache are the same after the call as before it, and the call returns unless the
key listing fails. -/
theorem C9_unregister_noop (c : Codec) (env : Env) (st : Servant) (S : String)
    (d : NodeAddresses) (hde : c.DecodesEmpty)
    (h : present st S = false ∨ c.encodeProtocols d ∉ storedList c st S) :
    (Unregister c env st S d).state.chordNode.store = st.chordNode.store ∧
    (Unregister c env st S d).state.cacheMap = st.cacheMap ∧
    (env.dhtOk st.chordNode.calls DhtOp.getAllKeys = true →
      ∃ st1 : Servant, Unregister c env st S d = .ok st1) := by
  have hnm : c.encodeProtocols d ∉ storedList c st.afterCall S := by
    rw [storedList_afterCall]
    rcases h with h | h
    · rw [storedList_of_absent c st S (by simp [h])]
      simp
    · exact h
  rw [Unregister_eq]
  by_cases hk : env.dhtOk st.chordNode.calls DhtOp.getAllKeys = true
  · rw [if_pos hk]
    refine ⟨?_, ?_, fun _ => ⟨_, rfl⟩⟩
    · show (unregisterFromChord c env st.afterCall S d).chordNode.store = st.chordNode.store
      rw [unregisterFromChord_store c env hde, if_neg (fun hh => hnm hh.2)]
      rfl
    · show (unregisterFromChord c env st.afterCall S d).cacheMap = st.cacheMap
      rw [unregisterFromChord_cacheMap]
      rfl
  · rw [if_neg hk]
    exact ⟨rfl, rfl, fun hh => absurd hh hk⟩

/-- C9 (instance): unregistering an endpoint that is not in the list of `TestService`. -/
theorem C9_unregister_noop_witness :
    (Unregister Sample.codec Sample.envUp (Sample.withStore [("TestService", "$GRPC$h1;")])
      "TestService" [("GRPC", "h2")]).state.chordNode.store =
      (Sample.withStore [("TestService", "$GRPC$h1;")]).chordNode.store ∧
    (Unregister Sample.codec Sample.envUp (Sample.withStore [("TestService", "$GRPC$h1;")])
      "TestService" [("GRPC", "h2")]).state.cacheMap =
      (Sample.withStore [("TestService", "$GRPC$h1;")]).cacheMap ∧
    (Sample.envUp.dhtOk (Sample.withStore [("TestService", "$GRPC$h1;")]).chordNode.calls
        DhtOp.getAllKeys = true →
      ∃ st1 : Servant,
        Unregister Sample.codec Sample.envUp (Sample.withStore [("TestService", "$GRPC$h1;")])
          "TestService" [("GRPC", "h2")] = .ok st1) :=
  C9_unregister_noop Sample.codec Sample.envUp (Sample.withStore [("TestService", "$GRPC$h1;")])
    "TestService" [("GRPC", "h2")] Sample.codec_decodesEmpty (Or.inr (by decide))

/-! ## The loops of the liveness sweep -/

theorem forEach_append (body : Servant → String → Result) (l1 l2 : List String) (st : Servant) :
    forEach body (l1 ++ l2) st =
      match forEach body l1 st with
      | .ok st1 => forEach body l2 st1
      | .error e => .error e := by
  induction l1 generalizing st with
  | nil => rfl
  | cons a rest ih =>
    simp only [List.cons_append, forEach]
    cases body st a with
    | ok st1 => exact ih st1
    | error e => rfl

/-- A property of states kept by every run of the body is kept by the loop, returned or
crashed. -/
theorem forEach_state_induct (body : Servant → String → Result) (P : Servant → Prop)
    (l : List String) (st : Servant) (h0 : P st)
    (hstep : ∀ s a, a ∈ l → P s → P (body s a).state) : P (forEach body l st).state := by
  induction l generalizing st with
  | nil => exact h0
  | cons a rest ih =>
    have h1 := hstep st a (List.mem_cons_self _ _) h0
    simp only [forEach]
    cases hb : body st a with
    | ok st1 =>
      rw [hb] at h1
      exact ih st1 h1 (fun s b hb2 hs => hstep s b (List.mem_cons_of_mem _ hb2) hs)
    | error e =>
      rw [hb] at h1
      exact h1

theorem cacheGet_of_cacheMap (st : Servant) (cm : String → Option NodeStatus)
    (h : st.cacheMap = some cm) (u : String) : cacheGet st u = cm u := by
  unfold cacheGet
  rw [h]

/-- The probe step on a servant whose health cache is a map: it returns, leaves the DHT handle
alone and rewrites the entry of the probed address only. -/
theorem probeEndpoint_ok (c : Codec) (env : Env) (K : String) (st : Servant) (a : String)
    (hc : CacheReady st) :
    ∃ st1 : Servant, probeEndpoint c env K st a = .ok st1 ∧ st1.chordNode = st.chordNode ∧
      CacheReady st1 ∧
      (∀ u, cacheGet st1 u =
        if u = a then
          some (probedStatus
            (probeAnswer env K st.probes.length ((c.decodeProtocols a).index "GRPC"))
            (cacheGet st a))
        else cacheGet st u) := by
  unfold CacheReady at hc
  cases hcm : st.cacheMap with
  | none => simp [hcm] at hc
  | some cm =>
    have hget : ∀ u, cacheGet st u = cm u := cacheGet_of_cacheMap st cm hcm
    simp only [hget]
    unfold probeEndpoint probeAnswer
    by_cases hk : K = "TestService" ∨ K = "CacheService"
    · simp only [hk, if_true, hcm]
      cases hcma : cm a with
      | none =>
        simp only [Option.isSome_none, Bool.false_eq_true, if_false, cacheSet, if_true]
        cases hal : env.isAlive st.probes.length K ((c.decodeProtocols a).index "GRPC") with
        | true =>
          refine ⟨_, rfl, rfl, rfl, ?_⟩
          intro u
          by_cases hu : u = a
          · simp [cacheGet, cacheSet, hu, probedStatus]
          · simp [cacheGet, cacheSet, hu]
        | false =>
          refine ⟨_, rfl, rfl, rfl, ?_⟩
          intro u
          by_cases hu : u = a
          · simp [cacheGet, cacheSet, hu, probedStatus]
          · simp [cacheGet, cacheSet, hu]
      | some e =>
        simp only [Option.isSome_some, if_true, hcma, cacheSet]
        cases hal : env.isAlive st.probes.length K ((c.decodeProtocols a).index "GRPC") with
        | true =>
          refine ⟨_, rfl, rfl, rfl, ?_⟩
          intro u
          by_cases hu : u = a
          · simp [cacheGet, cacheSet, hu, probedStatus]
          · simp [cacheGet, cacheSet, hu]
        | false =>
          refine ⟨_, rfl, rfl, rfl, ?_⟩
          intro u
          by_cases hu : u = a
          · subst hu
            by_cases h2 : e.FailCount + 1 ≥ 2
            · simp [cacheGet, cacheSet, probedStatus, h2]
            · simp [cacheGet, cacheSet, probedStatus, h2]
          · simp [cacheGet, cacheSet, hu]
    · simp only [hk, if_false, hcm]
      cases hcma : cm a with
      | none =>
        simp only [Option.isSome_none, Bool.false_eq_true, if_false, cacheSet, if_true]
        refine ⟨_, rfl, rfl, rfl, ?_⟩
        intro u
        by_cases hu : u = a
        · simp [cacheGet, cacheSet, hu, probedStatus]
        · simp [cacheGet, cacheSet, hu]
      | some e =>
        simp only [Option.isSome_some, if_true, hcma, cacheSet]
        refine ⟨_, rfl, rfl, rfl, ?_⟩
        intro u
        by_cases hu : u = a
        · subst hu
          by_cases h2 : e.FailCount + 1 ≥ 2
          · simp [cacheGet, cacheSet, probedStatus, h2]
          · simp [cacheGet, cacheSet, probedStatus, h2]
        · simp [cacheGet, cacheSet, hu]

theorem probeEndpoint_state_chordNode (c : Codec) (env : Env) (K : String) (st : Servant)
    (a : String) : (probeEndpoint c env K st a).state.chordNode = st.chordNode := by
  cases hcm : st.cacheMap with
  | none =>
    unfold probeEndpoint
    by_cases hk : K = "TestService" ∨ K = "CacheService"
    · simp only [hk, if_true, hcm]
      rfl
    · simp only [hk, if_false, hcm]
      rfl
  | some cm =>
    obtain ⟨st1, h1, h2, _⟩ := probeEndpoint_ok c env K st a (by simp [CacheReady, hcm])
    rw [h1]
    exact h2

theorem cacheGet_congr (st1 st2 : Servant) (h : st1.cacheMap = st2.cacheMap) (u : String) :
    cacheGet st1 u = cacheGet st2 u := by
  unfold cacheGet
  rw [h]

theorem CacheReady_congr (st1 st2 : Servant) (h : st1.cacheMap = st2.cacheMap)
    (hc : CacheReady st2) : CacheReady st1 := by
  unfold CacheReady at *
  rw [h]
  exact hc

/-- The three ways the eviction step goes: a nil dereference when the address has no cache
entry, nothing for an entry marked alive, and for an entry marked dead the deletion of the
entry followed by `unregisterFromChord`. -/
theorem evictEndpoint_cases (c : Codec) (env : Env) (K : String) (st : Servant) (a : String) :
    (cacheGet st a = none ∧ evictEndpoint c env K st a = .error (Crash.nilDeref, st)) ∨
    (∃ e : NodeStatus, cacheGet st a = some e ∧ e.Alive = true ∧
      evictEndpoint c env K st a = .ok st) ∨
    (∃ (e : NodeStatus) (st1 : Servant), cacheGet st a = some e ∧ e.Alive = false ∧
      st1.chordNode = st.chordNode ∧
      (∀ u, cacheGet st1 u = if u = a then none else cacheGet st u) ∧
      (CacheReady st → CacheReady st1) ∧
      evictEndpoint c env K st a =
        .ok (unregisterFromChord c env st1 K (c.decodeProtocols a))) := by
  unfold evictEndpoint
  cases hg : cacheGet st a with
  | none => exact Or.inl ⟨rfl, rfl⟩
  | some e =>
    cases hal : e.Alive with
    | true =>
      refine Or.inr (Or.inl ⟨e, rfl, hal, ?_⟩)
      simp [hal]
    | false =>
      refine Or.inr (Or.inr ⟨e,
        { st with cacheMap := st.cacheMap.map (fun cm => cacheDelete cm a) },
        rfl, hal, rfl, ?_, ?_, ?_⟩)
      · intro u
        unfold cacheGet
        cases hcm : st.cacheMap with
        | none => simp
        | some cm => simp [cacheDelete]
      · intro hc
        unfold CacheReady at *
        simpa using hc
      · simp [hal]

theorem storedList_congr_chordNode (c : Codec) (st1 st2 : Servant)
    (h : st1.chordNode = st2.chordNode) (k : String) :
    storedList c st1 k = storedList c st2 k := by
  unfold storedList
  rw [h]

theorem evictEndpoint_sublist (c : Codec) (env : Env)
    (hde : c.DecodesEmpty) (K K1 : String) (st : Servant) (hrt : RoundTripsBelow c st K)
    (a : String) :
    (storedList c (evictEndpoint c env K st a).state K1).Sublist (storedList c st K1) := by
  rcases evictEndpoint_cases c env K st a with ⟨_, h⟩ | ⟨e, _, _, h⟩ | ⟨e, st1, _, _, hch, _, _, h⟩
  · rw [h]
    exact List.Sublist.refl _
  · rw [h]
    exact List.Sublist.refl _
  · rw [h]
    have := storedList_unregisterFromChord_sublist c env hde st1 K
      (roundTripsBelow_congr c st st1 K hrt hch) K1 (c.decodeProtocols a)
    rw [storedList_congr_chordNode c st1 st hch] at this
    exact this

theorem evictEndpoint_cacheGet_other (c : Codec) (env : Env) (K : String) (st : Servant)
    (a u : String) (hu : u ≠ a) :
    cacheGet (evictEndpoint c env K st a).state u = cacheGet st u := by
  rcases evictEndpoint_cases c env K st a with ⟨_, h⟩ | ⟨e, _, _, h⟩ | ⟨e, st1, _, _, _, hcg, _, h⟩
  · rw [h]
    rfl
  · rw [h]
    rfl
  · rw [h]
    show cacheGet (unregisterFromChord c env st1 K (c.decodeProtocols a)) u = _
    rw [cacheGet_congr _ st1 (unregisterFromChord_cacheMap c env st1 K _), hcg, if_neg hu]

theorem evictEndpoint_cacheReady (c : Codec) (env : Env) (K : String) (st : Servant)
    (a : String) (hc : CacheReady st) : CacheReady (evictEndpoint c env K st a).state := by
  rcases evictEndpoint_cases c env K st a with ⟨_, h⟩ | ⟨e, _, _, h⟩ | ⟨e, st1, _, _, _, _, hcr, h⟩
  · rw [h]
    exact hc
  · rw [h]
    exact hc
  · rw [h]
    exact CacheReady_congr _ st1 (unregisterFromChord_cacheMap c env st1 K _) (hcr hc)

/-- The probe loop never touches the DHT handle. -/
theorem probeAll_state_chordNode (c : Codec) (env : Env) (K : String) (A : List String)
    (st : Servant) :
    (forEach (probeEndpoint c env K) A st).state.chordNode = st.chordNode :=
  forEach_state_induct (probeEndpoint c env K) (fun s => s.chordNode = st.chordNode) A st rfl
    (fun s a _ hs => by
      show (probeEndpoint c env K s a).state.chordNode = st.chordNode
      rw [probeEndpoint_state_chordNode, hs])

/-- The probe loop on a servant whose health cache is a map: it returns; every address of the
list ends with an entry, entries of other tokens are untouched, and in a duplicate-free list
every address gets the update of one probe. -/
theorem probeAll_ok (c : Codec) (env : Env) (K : String) (A : List String) (st : Servant)
    (hc : CacheReady st) :
    ∃ st1 : Servant, forEach (probeEndpoint c env K) A st = .ok st1 ∧
      st1.chordNode = st.chordNode ∧ CacheReady st1 ∧
      (∀ u, u ∉ A → cacheGet st1 u = cacheGet st u) ∧
      (∀ u, u ∈ A → (cacheGet st1 u).isSome = true) ∧
      (A.Nodup → ∀ u, u ∈ A → ∃ n : Nat, cacheGet st1 u =
        some (probedStatus (probeAnswer env K n ((c.decodeProtocols u).index "GRPC"))
          (cacheGet st u))) := by
  induction A generalizing st with
  | nil =>
    exact ⟨st, rfl, rfl, hc, fun _ _ => rfl, fun u hu => by simp at hu,
      fun _ u hu => by simp at hu⟩
  | cons a rest ih =>
    obtain ⟨s1, h1, hch1, hc1, hg1⟩ := probeEndpoint_ok c env K st a hc
    obtain ⟨s2, h2, hch2, hc2, hfr, hsome, hnd⟩ := ih s1 hc1
    refine ⟨s2, ?_, hch2.trans hch1, hc2, ?_, ?_, ?_⟩
    · simp only [forEach, h1]
      exact h2
    · intro u hu
      have hua : u ≠ a := fun e => hu (e ▸ List.mem_cons_self _ _)
      have hur : u ∉ rest := fun e => hu (List.mem_cons_of_mem _ e)
      rw [hfr u hur, hg1 u, if_neg hua]
    · intro u hu
      by_cases hur : u ∈ rest
      · exact hsome u hur
      · have hua : u = a := by
          rcases List.mem_cons.mp hu with h | h
          · exact h
          · exact absurd h hur
        rw [hfr u hur, hg1 u, if_pos hua]
        rfl
    · intro hnodup u hu
      have hnr : rest.Nodup := (List.nodup_cons.mp hnodup).2
      have har : a ∉ rest := (List.nodup_cons.mp hnodup).1
      rcases List.mem_cons.mp hu with h | h
      · subst h
        refine ⟨st.probes.length, ?_⟩
        rw [hfr u har, hg1 u, if_pos rfl]
      · have hua : u ≠ a := fun e => har (e ▸ h)
        obtain ⟨n, hn⟩ := hnd hnr u h
        refine ⟨n, ?_⟩
        rw [hn, hg1 u, if_neg hua]

theorem evictAll_shrinks (c : Codec) (env : Env) (hde : c.DecodesEmpty)
    (K : String) (B : List String) (st : Servant) (hrt : RoundTripsBelow c st K) :
    ∀ K1, (storedList c (forEach (evictEndpoint c env K) B st).state K1).Sublist
      (storedList c st K1) :=
  forEach_state_induct (evictEndpoint c env K)
    (fun s => ∀ K1, (storedList c s K1).Sublist (storedList c st K1)) B st
    (fun _ => List.Sublist.refl _)
    (fun s a _ hs K1 =>
      (evictEndpoint_sublist c env hde K K1 s (roundTripsBelow_mono c st s K hrt (hs K))
        a).trans (hs K1))

theorem evictAll_sublist (c : Codec) (env : Env) (hde : c.DecodesEmpty)
    (K K1 : String) (B : List String) (st : Servant) (hrt : RoundTripsBelow c st K) :
    (storedList c (forEach (evictEndpoint c env K) B st).state K1).Sublist
      (storedList c st K1) :=
  evictAll_shrinks c env hde K B st hrt K1

theorem evictAll_cacheGet_other (c : Codec) (env : Env) (K : String) (B : List String)
    (st : Servant) (u : String) (hu : u ∉ B) :
    cacheGet (forEach (evictEndpoint c env K) B st).state u = cacheGet st u :=
  forEach_state_induct (evictEndpoint c env K) (fun s => cacheGet s u = cacheGet st u) B st rfl
    (fun s a ha hs => by
      show cacheGet (evictEndpoint c env K s a).state u = _
      rw [evictEndpoint_cacheGet_other c env K s a u (fun e => hu (e ▸ ha)), hs])

theorem evictAll_cacheReady (c : Codec) (env : Env) (K : String) (B : List String)
    (st : Servant) (hc : CacheReady st) :
    CacheReady (forEach (evictEndpoint c env K) B st).state :=
  forEach_state_induct (evictEndpoint c env K) CacheReady B st hc
    (fun s a _ hs => evictEndpoint_cacheReady c env K s a hs)

theorem state_ok (s : Servant) : Result.state (Except.ok s) = s := rfl

/-- The eviction loop over a duplicate-free list whose addresses all have a cache entry: it
returns, and every address keeps its entry when marked alive and loses it when marked dead. -/
theorem evictAll_ok (c : Codec) (env : Env) (K : String) (B : List String) (st : Servant)
    (hnd : B.Nodup) (hsome : ∀ u, u ∈ B → (cacheGet st u).isSome = true) :
    ∃ st1 : Servant, forEach (evictEndpoint c env K) B st = .ok st1 ∧
      (∀ u, u ∈ B → ∀ e : NodeStatus, cacheGet st u = some e →
        cacheGet st1 u = if e.Alive = true then some e else none) := by
  induction B generalizing st with
  | nil => exact ⟨st, rfl, fun u hu => by simp at hu⟩
  | cons a rest ih =>
    have hnr : rest.Nodup := (List.nodup_cons.mp hnd).2
    have har : a ∉ rest := (List.nodup_cons.mp hnd).1
    have hstep_other : ∀ u, u ∈ rest →
        cacheGet (evictEndpoint c env K st a).state u = cacheGet st u :=
      fun u hu => evictEndpoint_cacheGet_other c env K st a u (fun e => har (e ▸ hu))
    have hsa := hsome a (List.mem_cons_self _ _)
    rcases evictEndpoint_cases c env K st a with ⟨hn, _⟩ | ⟨e, he, hal, h⟩ |
      ⟨e, s0, he, hal, _, hcg, _, h⟩
    · rw [hn] at hsa
      simp at hsa
    · obtain ⟨st1, h1, hp1⟩ := ih st hnr (fun u hu => hsome u (List.mem_cons_of_mem _ hu))
      refine ⟨st1, by simp only [forEach, h, h1], ?_⟩
      intro u hu e1 he1
      rcases List.mem_cons.mp hu with hua | hur
      · subst hua
        have := evictAll_cacheGet_other c env K rest st u har
        rw [h1, state_ok] at this
        rw [this, he1]
        rw [he] at he1
        cases he1
        simp [hal]
      · exact hp1 u hur e1 he1
    · have hs1 : ∀ u, u ∈ rest →
          cacheGet (unregisterFromChord c env s0 K (c.decodeProtocols a)) u = cacheGet st u := by
        intro u hu
        have := hstep_other u hu
        rw [h, state_ok] at this
        exact this
      obtain ⟨st1, h1, hp1⟩ := ih (unregisterFromChord c env s0 K (c.decodeProtocols a)) hnr
        (fun u hu => by rw [hs1 u hu]; exact hsome u (List.mem_cons_of_mem _ hu))
      refine ⟨st1, by simp only [forEach, h, h1], ?_⟩
      intro u hu e1 he1
      rcases List.mem_cons.mp hu with hua | hur
      · subst hua
        have := evictAll_cacheGet_other c env K rest
          (unregisterFromChord c env s0 K (c.decodeProtocols u)) u har
        rw [h1, state_ok] at this
        rw [this, cacheGet_congr _ s0 (unregisterFromChord_cacheMap c env s0 K _), hcg u,
          if_pos rfl]
        rw [he] at he1
        cases he1
        simp [hal]
      · exact hp1 u hur e1 (by rw [hs1 u hur]; exact he1)

theorem checkService_eq (c : Codec) (env : Env) (st : Servant) (K : String) :
    checkService c env st K =
      match forEach (probeEndpoint c env K) (readList c env st K) st.afterCall with
      | .error e => .error e
      | .ok st2 => forEach (evictEndpoint c env K) (readList c env st K).reverse st2 := rfl

theorem checkService_sublist (c : Codec) (env : Env)
    (hde : c.DecodesEmpty) (st : Servant) (K : String) (hrt : RoundTripsBelow c st K)
    (K1 : String) :
    (storedList c (checkService c env st K).state K1).Sublist (storedList c st K1) := by
  have hp := probeAll_state_chordNode c env K (readList c env st K) st.afterCall
  rw [checkService_eq]
  cases hf : forEach (probeEndpoint c env K) (readList c env st K) st.afterCall with
  | error e =>
    rw [hf] at hp
    show (storedList c (Result.state (.error e)) K1).Sublist _
    rw [storedList_congr_chordNode c _ st.afterCall hp, storedList_afterCall]
  | ok st2 =>
    rw [hf, state_ok] at hp
    show (storedList c (forEach (evictEndpoint c env K) _ st2).state K1).Sublist _
    have := evictAll_sublist c env hde K K1 (readList c env st K).reverse st2
      (roundTripsBelow_congr c st.afterCall st2 K hrt hp)
    rw [storedList_congr_chordNode c st2 st.afterCall hp, storedList_afterCall] at this
    exact this

theorem cacheGet_afterCall (st : Servant) (u : String) :
    cacheGet st.afterCall u = cacheGet st u := rfl

/-- One service of the sweep, on a servant whose health cache is a map and for a duplicate-free
list read: it returns, the health cache is still a map and tokens outside the list keep their
entries. -/
theorem checkService_returns (c : Codec) (env : Env) (st : Servant) (K : String)
    (hc : CacheReady st) (hnd : (readList c env st K).Nodup) :
    ∃ st1 : Servant, checkService c env st K = .ok st1 ∧ CacheReady st1 ∧
      (∀ u, u ∉ readList c env st K → cacheGet st1 u = cacheGet st u) := by
  have hca : CacheReady st.afterCall := hc
  obtain ⟨st2, hf, _, hc2, hfr2, hsome2, _⟩ :=
    probeAll_ok c env K (readList c env st K) st.afterCall hca
  obtain ⟨st1, he, _⟩ := evictAll_ok c env K _ st2 (List.nodup_reverse.mpr hnd)
    (fun u hu => hsome2 u (List.mem_reverse.mp hu))
  have hst1 : (forEach (evictEndpoint c env K) (readList c env st K).reverse st2).state = st1 := by
    rw [he, state_ok]
  refine ⟨st1, ?_, ?_, ?_⟩
  · rw [checkService_eq]
    simp only [hf]
    exact he
  · have := evictAll_cacheReady c env K (readList c env st K).reverse st2 hc2
    rw [hst1] at this
    exact this
  · intro u hu
    have := evictAll_cacheGet_other c env K (readList c env st K).reverse st2 u
      (fun h => hu (List.mem_reverse.mp h))
    rw [hst1] at this
    rw [this, hfr2 u hu, cacheGet_afterCall]

/-! ## The whole sweep -/

theorem IsAliveCheck_eq (c : Codec) (env : Env) (st : Servant) :
    IsAliveCheck c env st =
      if env.dhtOk st.chordNode.calls DhtOp.getAllKeys = true then
        forEach (checkService c env) (st.chordNode.store.map Prod.fst).dedup st.afterCall
      else .error (Crash.fatal, st.afterCall) := by
  unfold IsAliveCheck Chord.GetAllKeys
  by_cases h : env.dhtOk st.chordNode.calls DhtOp.getAllKeys = true
  · simp only [h, if_true]
    rfl
  · simp [h]
    rfl

/-- Whatever the outcomes of the DHT calls and of the probes, a run over services leaves every
stored list a sublist of what it was. -/
theorem services_sublist (c : Codec) (env : Env) (hde : c.DecodesEmpty)
    (ks : List String) (st : Servant) (hrt : ∀ K, RoundTripsBelow c st K) :
    ∀ K1, (storedList c (forEach (checkService c env) ks st).state K1).Sublist
      (storedList c st K1) :=
  forEach_state_induct (checkService c env)
    (fun s => ∀ K1, (storedList c s K1).Sublist (storedList c st K1)) ks st
    (fun _ => List.Sublist.refl _)
    (fun s a _ hs K1 =>
      (checkService_sublist c env hde s a (roundTripsBelow_mono c st s a (hrt a) (hs a))
        K1).trans (hs K1))

theorem IsAliveCheck_sublist (c : Codec) (env : Env)
    (hde : c.DecodesEmpty) (st : Servant) (hrt : ∀ K, RoundTripsBelow c st K) (K1 : String) :
    (storedList c (IsAliveCheck c env st).state K1).Sublist (storedList c st K1) := by
  rw [IsAliveCheck_eq]
  split
  · have := services_sublist c env hde (st.chordNode.store.map Prod.fst).dedup st.afterCall
      hrt K1
    rw [storedList_afterCall] at this
    exact this
  · exact List.Sublist.refl _

theorem readList_nodup (c : Codec) (env : Env) (hde : c.DecodesEmpty) (st : Servant)
    (K : String) (h : (storedList c st K).Nodup) : (readList c env st K).Nodup := by
  rw [readList_of_decodesEmpty c env hde]
  split
  · exact h
  · exact List.nodup_nil

theorem Spec.splitChars_cons (sep ch : Char) (rest cur : List Char) :
    Spec.splitChars sep (ch :: rest) cur =
      if ch = sep then String.mk cur.reverse :: Spec.splitChars sep rest []
      else Spec.splitChars sep rest (ch :: cur) := rfl

theorem Spec.joinChars_singleton (sep : Char) (t : List Char) :
    Spec.joinChars sep [t] = t := rfl

theorem Spec.joinChars_cons_cons (sep : Char) (t u : List Char) (rest : List (List Char)) :
    Spec.joinChars sep (t :: u :: rest) = t ++ sep :: Spec.joinChars sep (u :: rest) := rfl

theorem Spec.splitChars_append (sep : Char) (t : List Char) (hsep : sep ∉ t)
    (r cur : List Char) :
    Spec.splitChars sep (t ++ r) cur = Spec.splitChars sep r (t.reverse ++ cur) := by
  induction t generalizing cur with
  | nil => rfl
  | cons ch rest ih =>
    have hch : ¬ ch = sep := fun e => hsep (e ▸ List.mem_cons_self _ _)
    have hrest : sep ∉ rest := fun e => hsep (List.mem_cons_of_mem _ e)
    rw [List.cons_append, Spec.splitChars_cons, if_neg hch, ih hrest]
    simp

theorem Spec.splitChars_joinChars (sep : Char) (L : List (List Char)) (hne : L ≠ [])
    (hsep : ∀ t, t ∈ L → sep ∉ t) :
    Spec.splitChars sep (Spec.joinChars sep L) [] = L.map String.mk := by
  induction L with
  | nil => exact absurd rfl hne
  | cons t rest ih =>
    have ht : sep ∉ t := hsep t (List.mem_cons_self _ _)
    cases rest with
    | nil =>
      have := Spec.splitChars_append sep t ht [] []
      simp only [List.append_nil] at this
      rw [Spec.joinChars_singleton, this]
      simp [Spec.splitChars]
    | cons u rest2 =>
      have hrest := ih (by simp) (fun x hx => hsep x (List.mem_cons_of_mem _ hx))
      rw [Spec.joinChars_cons_cons, Spec.splitChars_append sep t ht, Spec.splitChars_cons,
        if_pos rfl, hrest]
      simp

theorem Spec.joinChars_eq_nil (sep : Char) (L : List (List Char))
    (h : Spec.joinChars sep L = []) : L = [] ∨ L = [[]] := by
  cases L with
  | nil => exact Or.inl rfl
  | cons t rest =>
    cases rest with
    | nil =>
      rw [Spec.joinChars_singleton] at h
      exact Or.inr (by rw [h])
    | cons u rest2 =>
      rw [Spec.joinChars_cons_cons] at h
      simp at h

theorem Spec.decodeStrings_mk (sep : Char) (cs : List Char) :
    Spec.decodeStrings sep (String.mk cs) =
      if cs = [] then [] else Spec.splitChars sep cs [] := by
  cases cs with
  | nil => rfl
  | cons ch rest => simp [Spec.decodeStrings]

theorem Spec.data_eq_nil (t : String) (h : t.data = []) : t = "" := by
  cases t
  simp only at h
  rw [h]

/-- The list codec of the specification round-trips the lists of valid tokens: those that are
not empty and do not hold the delimiter. -/
theorem Spec.codec_roundTripOn (sep : Char) :
    (Spec.codec sep).RoundTripOn (Spec.validToken sep) := by
  intro L hL
  have hsep : ∀ t, t ∈ L → sep ∉ t.data := fun t ht => (hL t ht).2
  have hne : L ≠ [""] := by
    intro h
    exact (hL "" (by rw [h]; simp)).1 rfl
  show Spec.decodeStrings sep (Spec.encodeStrings sep L) = L
  unfold Spec.encodeStrings
  rw [Spec.decodeStrings_mk]
  by_cases hj : Spec.joinChars sep (L.map String.data) = []
  · rw [if_pos hj]
    rcases Spec.joinChars_eq_nil sep _ hj with h | h
    · simpa using h.symm
    · exfalso
      apply hne
      cases L with
      | nil => simp at h
      | cons t rest =>
        simp only [List.map_cons, List.cons.injEq, List.map_eq_nil_iff] at h
        rw [h.2, Spec.data_eq_nil t h.1]
  · rw [if_neg hj]
    have hL : L.map String.data ≠ [] := by
      intro h
      rw [h] at hj
      exact hj rfl
    rw [Spec.splitChars_joinChars sep _ hL (by
      intro t ht
      obtain ⟨s, hs, rfl⟩ := List.mem_map.mp ht
      exact hsep s hs)]
    rw [List.map_map]
    conv_rhs => rw [← List.map_id L]
    apply List.map_congr_left
    intro s _
    rfl

theorem Spec.codec_emptyBlob (sep : Char) : (Spec.codec sep).DecodesEmpty := rfl

/-! ## Facts used to instantiate statements at concrete servants -/

theorem storedList_withStore_single (c : Codec) (k v K : String) :
    storedList c (Sample.withStore [(k, v)]) K = if K = k then c.decodeStrings v else [] := by
  unfold storedList Sample.withStore
  simp only [lookup_cons_ite, List.lookup_nil]
  by_cases h : K = k
  · simp only [h, if_true]
  · simp only [h, if_false]

theorem forall_mem_withStore_single (c : Codec) (k v : String) (P : String → Prop)
    (h : ∀ t, t ∈ c.decodeStrings v → P t) :
    ∀ (K t : String), t ∈ storedList c (Sample.withStore [(k, v)]) K → P t := by
  intro K t ht
  rw [storedList_withStore_single] at ht
  split at ht
  · exact h t ht
  · simp at ht

/-- A servant holding one key whose list is made of valid tokens, with the codec of the
specification: the list codec round-trips every sublist of its stored lists. -/
theorem Spec.roundTripsBelow_single (sep : Char) (k v : String)
    (h : ∀ t, t ∈ Spec.decodeStrings sep v → Spec.validToken sep t) (K : String) :
    RoundTripsBelow (Spec.codec sep) (Sample.withStore [(k, v)]) K :=
  roundTripsBelow_of_valid (Spec.codec sep) (Spec.validToken sep) (Spec.codec_roundTripOn sep) _
    (forall_mem_withStore_single (Spec.codec sep) k v (Spec.validToken sep) h) K

theorem Sample.storedList_single (k v K : String) :
    storedList Sample.codec (Sample.withStore [(k, v)]) K =
      if K = k then Sample.decodeStrings v else [] := by
  unfold storedList Sample.withStore
  simp only [lookup_cons_ite, List.lookup_nil]
  by_cases h : K = k
  · simp only [h, if_true]
    rfl
  · simp only [h, if_false]

theorem Sample.noDuplicates_single (k v : String) (h : (Sample.decodeStrings v).Nodup) :
    NoDuplicates Sample.codec (Sample.withStore [(k, v)]) := by
  intro K
  rw [Sample.storedList_single]
  split
  · exact h
  · exact List.nodup_nil

/-! ## Liveness claims -/

/-- C5 (the code at the failing input): the service `Foo` is not a known kind. Two consecutive
sweeps dispatch no probe, yet the first leaves its endpoint with `FailCount = 1` and the second
removes the endpoint and the key. -/
theorem C5_unknown_service_evicted :
    storedList Sample.codec (Sample.withStore [("Foo", "$GRPC$h1;")]) "Foo" = ["$GRPC$h1"] ∧
    (IsAliveCheckTicks Sample.codec Sample.envUp 1
      (Sample.withStore [("Foo", "$GRPC$h1;")])).returned = true ∧
    cacheGet (IsAliveCheckTicks Sample.codec Sample.envUp 1
      (Sample.withStore [("Foo", "$GRPC$h1;")])).state "$GRPC$h1" = some ⟨1, true⟩ ∧
    (IsAliveCheckTicks Sample.codec Sample.envUp 2
      (Sample.withStore [("Foo", "$GRPC$h1;")])).returned = true ∧
    (IsAliveCheckTicks Sample.codec Sample.envUp 2
      (Sample.withStore [("Foo", "$GRPC$h1;")])).state.probes = [] ∧
    storedList Sample.codec (IsAliveCheckTicks Sample.codec Sample.envUp 2
      (Sample.withStore [("Foo", "$GRPC$h1;")])).state "Foo" = [] ∧
    present (IsAliveCheckTicks Sample.codec Sample.envUp 2
      (Sample.withStore [("Foo", "$GRPC$h1;")])).state "Foo" = false := by
  decide

theorem evictEndpoint_store_induct (c : Codec) (env : Env) (P : List (String × String) → Prop)
    (hstep : ∀ (s : Servant) (S : String) (d : NodeAddresses),
      P s.chordNode.store → P (unregisterFromChord c env s S d).chordNode.store)
    (K : String) (st : Servant) (a : String) (h : P st.chordNode.store) :
    P (evictEndpoint c env K st a).state.chordNode.store := by
  rcases evictEndpoint_cases c env K st a with ⟨_, h1⟩ | ⟨e, _, _, h1⟩ |
    ⟨e, st1, _, _, hch, _, _, h1⟩
  · rw [h1]
    exact h
  · rw [h1]
    exact h
  · rw [h1, state_ok]
    exact hstep st1 K _ (by rw [hch]; exact h)

theorem checkService_store_induct (c : Codec) (env : Env) (P : List (String × String) → Prop)
    (hstep : ∀ (s : Servant) (S : String) (d : NodeAddresses),
      P s.chordNode.store → P (unregisterFromChord c env s S d).chordNode.store)
    (st : Servant) (K : String) (h : P st.chordNode.store) :
    P (checkService c env st K).state.chordNode.store := by
  have hp := probeAll_state_chordNode c env K (readList c env st K) st.afterCall
  rw [checkService_eq]
  cases hf : forEach (probeEndpoint c env K) (readList c env st K) st.afterCall with
  | error e =>
    rw [hf] at hp
    show P (Result.state (.error e)).chordNode.store
    rw [hp]
    exact h
  | ok st2 =>
    rw [hf, state_ok] at hp
    show P (forEach (evictEndpoint c env K) _ st2).state.chordNode.store
    exact forEach_state_induct (evictEndpoint c env K) (fun s => P s.chordNode.store) _ st2
      (by show P st2.chordNode.store; rw [hp]; exact h)
      (fun s a _ hs => evictEndpoint_store_induct c env P hstep K s a hs)

/-- A property of the DHT store that every `unregisterFromChord` keeps is kept by a sweep,
whatever the outcomes of the probes and of the DHT calls, returned or crashed. -/
theorem IsAliveCheck_store_induct (c : Codec) (env : Env) (P : List (String × String) → Prop)
    (hstep : ∀ (s : Servant) (S : String) (d : NodeAddresses),
      P s.chordNode.store → P (unregisterFromChord c env s S d).chordNode.store)
    (st : Servant) (h : P st.chordNode.store) :
    P (IsAliveCheck c env st).state.chordNode.store := by
  rw [IsAliveCheck_eq]
  split
  · exact forEach_state_induct (checkService c env) (fun s => P s.chordNode.store) _ st.afterCall
      h (fun s a _ hs => checkService_store_induct c env P hstep s a hs)
  · exact h

/-- The two-state property over lists of tokens of a class, on the store: every stored value
decodes to a non-empty list of tokens of the class. -/
theorem twoState_valid_iff (c : Codec) (V : String → Prop) (st : Servant) :
    (TwoState c st ∧ ValidLists c V st) ↔
      ∀ k v, List.lookup k st.chordNode.store = some v →
        c.decodeStrings v ≠ [] ∧ ∀ t, t ∈ c.decodeStrings v → V t := by
  unfold TwoState ValidLists present storedList
  constructor
  · intro h k v hv
    have h1 := h.1 k (by rw [hv]; rfl)
    have h2 := h.2 k
    rw [hv] at h1 h2
    exact ⟨h1, h2⟩
  · intro h
    constructor
    · intro k hp
      cases hl : List.lookup k st.chordNode.store with
      | none => rw [hl] at hp; simp at hp
      | some v => exact (h k v hl).1
    · intro k t ht
      cases hl : List.lookup k st.chordNode.store with
      | none => rw [hl] at ht; simp at ht
      | some v =>
        rw [hl] at ht
        exact (h k v hl).2 t ht

theorem readList_valid (c : Codec) (env : Env) (V : String → Prop) (hde : c.DecodesEmpty)
    (s : Servant) (S : String)
    (h : ∀ k v, List.lookup k s.chordNode.store = some v →
      c.decodeStrings v ≠ [] ∧ ∀ t, t ∈ c.decodeStrings v → V t) :
    ∀ t, t ∈ readList c env s S → V t := by
  intro t ht
  rw [readList_of_decodesEmpty c env hde] at ht
  split at ht
  · unfold storedList at ht
    cases hl : List.lookup S s.chordNode.store with
    | none => rw [hl] at ht; simp at ht
    | some v =>
      rw [hl] at ht
      exact (h S v hl).2 t ht
  · simp at ht

theorem unregisterFromChord_twoState (c : Codec) (env : Env) (V : String → Prop)
    (hrt : c.RoundTripOn V) (hde : c.DecodesEmpty)
    (s : Servant) (S : String) (d : NodeAddresses)
    (h : ∀ k v, List.lookup k s.chordNode.store = some v →
      c.decodeStrings v ≠ [] ∧ ∀ t, t ∈ c.decodeStrings v → V t) :
    ∀ k v, List.lookup k (unregisterFromChord c env s S d).chordNode.store = some v →
      c.decodeStrings v ≠ [] ∧ ∀ t, t ∈ c.decodeStrings v → V t := by
  have hval : ∀ t, t ∈ (readList c env s S).erase (c.encodeProtocols d) → V t :=
    fun t ht => readList_valid c env V hde s S h t (List.mem_of_mem_erase ht)
  intro k v
  rw [unregisterFromChord_store_read]
  split_ifs with h1 h2 h3 h4
  · rw [lookup_storeDelete]
    split
    · intro hv
      cases hv
    · exact h k v
  · exact h k v
  · rw [lookup_storeSet]
    split
    · intro hv
      cases hv
      rw [hrt _ hval]
      exact ⟨h2, hval⟩
    · exact h k v
  · exact h k v
  · exact h k v

theorem Register_twoState (c : Codec) (env : Env) (V : String → Prop)
    (hrt : c.RoundTripOn V) (hde : c.DecodesEmpty) (st : Servant)
    (S : String) (d : NodeAddresses) (hd : V (c.encodeProtocols d))
    (h : ∀ k v, List.lookup k st.chordNode.store = some v →
      c.decodeStrings v ≠ [] ∧ ∀ t, t ∈ c.decodeStrings v → V t) :
    ∀ k v, List.lookup k (Register c env st S d).state.chordNode.store = some v →
      c.decodeStrings v ≠ [] ∧ ∀ t, t ∈ c.decodeStrings v → V t := by
  obtain ⟨st1, _, _, _, hr⟩ := Register_eq c env st S d
  have hnodes : ∀ t, t ∈ (if present st S = true then readList c env st.afterCall S else []) ++
      [c.encodeProtocols d] → V t := by
    intro t ht
    rcases List.mem_append.mp ht with ht | ht
    · split at ht
      · exact readList_valid c env V hde st.afterCall S h t ht
      · simp at ht
    · rw [List.mem_singleton] at ht
      rw [ht]
      exact hd
  by_cases hk : env.dhtOk st.chordNode.calls DhtOp.getAllKeys = true
  · rw [if_pos hk] at hr
    rw [hr.1, state_ok, hr.2]
    intro k v
    by_cases hm : c.encodeProtocols d ∈
        (if present st S = true then readList c env st.afterCall S else [])
    · rw [if_pos hm]
      exact h k v
    · rw [if_neg hm]
      by_cases hw : env.dhtOk (st.chordNode.calls + (if present st S = true then 2 else 1))
          (DhtOp.set S) = true
      · rw [if_pos hw, lookup_storeSet]
        split
        · intro hv
          cases hv
          rw [hrt _ hnodes]
          exact ⟨by simp, hnodes⟩
        · exact h k v
      · rw [if_neg hw]
        exact h k v
  · rw [if_neg hk] at hr
    rw [hr.1]
    show ∀ k v, List.lookup k st1.chordNode.store = some v → _
    rw [hr.2]
    exact h

theorem applyOp_discover_state (c : Codec) (env : Env) (st : Servant) (S : String) :
    (applyOp c env st (Op.discover S)).state = discoverState (Discover c env st S) := by
  simp only [applyOp]
  cases Discover c env st S with
  | ok r => rfl
  | error e => rfl

theorem applyOp_twoState (c : Codec) (env : Env) (V : String → Prop)
    (hrt : c.RoundTripOn V) (hde : c.DecodesEmpty) (st : Servant) (op : Op)
    (hop : ∀ S d, op = Op.register S d → V (c.encodeProtocols d))
    (h : ∀ k v, List.lookup k st.chordNode.store = some v →
      c.decodeStrings v ≠ [] ∧ ∀ t, t ∈ c.decodeStrings v → V t) :
    ∀ k v, List.lookup k (applyOp c env st op).state.chordNode.store = some v →
      c.decodeStrings v ≠ [] ∧ ∀ t, t ∈ c.decodeStrings v → V t := by
  cases op with
  | register S d => exact Register_twoState c env V hrt hde st S d (hop S d rfl) h
  | unregister S d =>
    show ∀ k v, List.lookup k (Unregister c env st S d).state.chordNode.store = some v → _
    rw [Unregister_eq]
    split
    · exact unregisterFromChord_twoState c env V hrt hde st.afterCall S d h
    · exact h
  | discover S =>
    rw [applyOp_discover_state, (discoverState_store c env st S).1]
    exact h
  | sweep =>
    exact IsAliveCheck_store_induct c env
      (fun store => ∀ k v, List.lookup k store = some v →
        c.decodeStrings v ≠ [] ∧ ∀ t, t ∈ c.decodeStrings v → V t)
      (fun s S d hs => unregisterFromChord_twoState c env V hrt hde s S d hs) st h

/-- A property of states kept by every call of a sequence is kept by the sequence. -/
theorem runOps_state_induct (c : Codec) (env : Env) (P : Servant → Prop)
    (ops : List Op) (hstep : ∀ s op, op ∈ ops → P s → P (applyOp c env s op).state)
    (st : Servant) (h0 : P st) : P (runOps c env ops st).state := by
  induction ops generalizing st with
  | nil => exact h0
  | cons op rest ih =>
    have h1 := hstep st op (List.mem_cons_self _ _) h0
    simp only [runOps]
    cases hb : applyOp c env st op with
    | ok st1 =>
      rw [hb] at h1
      exact ih (fun s op2 hop hs => hstep s op2 (List.mem_cons_of_mem _ hop) hs) st1 h1
    | error e =>
      rw [hb] at h1
      exact h1

/-! ## Claims on invariants, error handling and frames -/

/-- C11 (amended): for a codec that decodes the empty blob to the empty list and round-trips
the lists of tokens of a class V (for the list codec of the specification, the tokens that are
not empty and do not hold the list delimiter), starting from a DHT in which every present
service key holds a non-empty endpoint list of tokens of V, after any sequence of `Register` of
descriptors whose encoding is in V, `Unregister`, `Discover` and liveness sweeps, whatever the
outcomes of the DHT calls and probes and wherever the run stops, every present service key
still holds a non-empty endpoint list: no operation stores an empty list under a key. -/
theorem C11_two_state_invariant (c : Codec) (env : Env) (st : Servant) (V : String → Prop)
    (hrt : c.RoundTripOn V) (hde : c.DecodesEmpty) (hv : ValidLists c V st)
    (h : TwoState c st) (ops : List Op)
    (hops : ∀ S d, Op.register S d ∈ ops → V (c.encodeProtocols d)) :
    TwoState c (runOps c env ops st).state :=
  ((twoState_valid_iff c V _).mpr
    (runOps_state_induct c env
      (fun s => ∀ k v, List.lookup k s.chordNode.store = some v →
        c.decodeStrings v ≠ [] ∧ ∀ t, t ∈ c.decodeStrings v → V t)
      ops
      (fun s op hop hs =>
        applyOp_twoState c env V hrt hde s op (fun S d e => hops S d (e ▸ hop)) hs)
      st ((twoState_valid_iff c V st).mp ⟨h, hv⟩))).1

/-- C11 (instance): a registration, a sweep with failing probes, a lookup, a second sweep and
an unregistration on a servant holding one endpoint for `TestService`, with the codec of the
specification and the list delimiter `,`. -/
theorem C11_two_state_invariant_witness :
    TwoState (Spec.codec ',')
      (runOps (Spec.codec ',') Sample.envDown
        [Op.register "CacheService" [("GRPC", "h2")], Op.sweep, Op.discover "TestService",
          Op.sweep, Op.unregister "CacheService" [("GRPC", "h2")]]
        (Sample.withStore [("TestService", "$GRPC$h1")])).state :=
  C11_two_state_invariant (Spec.codec ',') Sample.envDown
    (Sample.withStore [("TestService", "$GRPC$h1")]) (Spec.validToken ',')
    (Spec.codec_roundTripOn ',') (Spec.codec_emptyBlob ',')
    (forall_mem_withStore_single _ _ _ _ (by decide))
    (fun k hp => by
      rw [storedList_withStore_single]
      have hk : k = "TestService" := by
        by_contra hne
        have : present (Sample.withStore [("TestService", "$GRPC$h1")]) k = false := by
          unfold present Sample.withStore
          simp [lookup_cons_ite, hne]
        rw [this] at hp
        cases hp
      rw [if_pos hk]
      decide)
    _
    (fun S d hm => by
      simp only [List.mem_cons, Op.register.injEq, reduceCtorEq, List.mem_singleton,
        List.not_mem_nil, or_false, false_or] at hm
      obtain ⟨_, rfl⟩ := hm
      decide)

/-- C11 (as stated, refuted): with the list codec of the specification and the list delimiter
`,`, no key of the fresh servant is present, so every present key holds a non-empty list;
`Register` of the descriptor without protocols returns and leaves the key `TestService` present
with a blob that decodes to the empty list. -/
theorem C11_empty_token_counterexample :
    TwoState (Spec.codec ',') Sample.fresh ∧
    (runOps (Spec.codec ',') Sample.envUp [Op.register "TestService" []]
      Sample.fresh).returned = true ∧
    present (runOps (Spec.codec ',') Sample.envUp [Op.register "TestService" []]
      Sample.fresh).state "TestService" = true ∧
    storedList (Spec.codec ',')
      (runOps (Spec.codec ',') Sample.envUp [Op.register "TestService" []]
        Sample.fresh).state "TestService" = [] ∧
    ¬ TwoState (Spec.codec ',')
      (runOps (Spec.codec ',') Sample.envUp [Op.register "TestService" []]
        Sample.fresh).state :=
  ⟨fun _ hp => Bool.noConfusion hp, by decide, by decide, by decide,
    fun h => h "TestService" (by decide) (by decide)⟩

theorem Register_state_frame (c : Codec) (env : Env) (st : Servant) (S : String)
    (d : NodeAddresses) :
    (Register c env st S d).state.cacheMap = st.cacheMap ∧
    ∀ T, T ≠ S → List.lookup T (Register c env st S d).state.chordNode.store =
      List.lookup T st.chordNode.store := by
  obtain ⟨st1, hc, _, _, hr⟩ := Register_eq c env st S d
  by_cases hk : env.dhtOk st.chordNode.calls DhtOp.getAllKeys = true
  · rw [if_pos hk] at hr
    rw [hr.1, state_ok]
    refine ⟨hc, fun T hT => ?_⟩
    rw [hr.2]
    by_cases hm : c.encodeProtocols d ∈
        (if present st S = true then readList c env st.afterCall S else [])
    · rw [if_pos hm]
    · rw [if_neg hm]
      by_cases hw : env.dhtOk (st.chordNode.calls + (if present st S = true then 2 else 1))
          (DhtOp.set S) = true
      · rw [if_pos hw, lookup_storeSet, if_neg hT]
      · rw [if_neg hw]
  · rw [if_neg hk] at hr
    rw [hr.1]
    refine ⟨hc, fun T _ => ?_⟩
    show List.lookup T st1.chordNode.store = _
    rw [hr.2]

theorem Unregister_state_frame (c : Codec) (env : Env) (st : Servant) (S : String)
    (d : NodeAddresses) :
    (Unregister c env st S d).state.cacheMap = st.cacheMap ∧
    ∀ T, T ≠ S → List.lookup T (Unregister c env st S d).state.chordNode.store =
      List.lookup T st.chordNode.store := by
  rw [Unregister_eq]
  split
  · rw [state_ok]
    refine ⟨?_, fun T hT => ?_⟩
    · rw [unregisterFromChord_cacheMap]
      rfl
    · rw [lookup_unregisterFromChord_other c env st.afterCall S T d hT]
      rfl
  · exact ⟨rfl, fun T _ => rfl⟩

theorem present_of_lookup (st1 st2 : Servant) (k : String)
    (h : List.lookup k st1.chordNode.store = List.lookup k st2.chordNode.store) :
    present st1 k = present st2 k := by
  unfold present
  rw [h]

/-- C20: `Register S d` and `Unregister S d` change at most the DHT entry of S: for every
service name T different from S, the presence of T and its stored list are the same after the
call as before it, and the health cache is unchanged by both operations; this for every outcome
of the DHT calls, returned or stopped. -/
theorem C20_register_unregister_frame (c : Codec) (env : Env) (st : Servant) (S T : String)
    (d : NodeAddresses) (hT : T ≠ S) :
    (present (Register c env st S d).state T = present st T ∧
      storedList c (Register c env st S d).state T = storedList c st T ∧
      (Register c env st S d).state.cacheMap = st.cacheMap) ∧
    (present (Unregister c env st S d).state T = present st T ∧
      storedList c (Unregister c env st S d).state T = storedList c st T ∧
      (Unregister c env st S d).state.cacheMap = st.cacheMap) := by
  have hr := Register_state_frame c env st S d
  have hu := Unregister_state_frame c env st S d
  exact ⟨⟨present_of_lookup _ _ T (hr.2 T hT), storedList_of_lookup c _ _ T (hr.2 T hT), hr.1⟩,
    ⟨present_of_lookup _ _ T (hu.2 T hT), storedList_of_lookup c _ _ T (hu.2 T hT), hu.1⟩⟩

/-- C20 (instance): registering and unregistering under `CacheService` leaves `TestService`
as it was. -/
theorem C20_register_unregister_frame_witness :
    (present (Register Sample.codec Sample.envUp
        (Sample.withStore [("TestService", "$GRPC$h1;")]) "CacheService"
        [("GRPC", "h2")]).state "TestService" =
        present (Sample.withStore [("TestService", "$GRPC$h1;")]) "TestService" ∧
      storedList Sample.codec (Register Sample.codec Sample.envUp
        (Sample.withStore [("TestService", "$GRPC$h1;")]) "CacheService"
        [("GRPC", "h2")]).state "TestService" =
        storedList Sample.codec (Sample.withStore [("TestService", "$GRPC$h1;")])
          "TestService" ∧
      (Register Sample.codec Sample.envUp
        (Sample.withStore [("TestService", "$GRPC$h1;")]) "CacheService"
        [("GRPC", "h2")]).state.cacheMap =
        (Sample.withStore [("TestService", "$GRPC$h1;")]).cacheMap) ∧
    (present (Unregister Sample.codec Sample.envUp
        (Sample.withStore [("TestService", "$GRPC$h1;")]) "CacheService"
        [("GRPC", "h2")]).state "TestService" =
        present (Sample.withStore [("TestService", "$GRPC$h1;")]) "TestService" ∧
      storedList Sample.codec (Unregister Sample.codec Sample.envUp
        (Sample.withStore [("TestService", "$GRPC$h1;")]) "CacheService"
        [("GRPC", "h2")]).state "TestService" =
        storedList Sample.codec (Sample.withStore [("TestService", "$GRPC$h1;")])
          "TestService" ∧
      (Unregister Sample.codec Sample.envUp
        (Sample.withStore [("TestService", "$GRPC$h1;")]) "CacheService"
        [("GRPC", "h2")]).state.cacheMap =
        (Sample.withStore [("TestService", "$GRPC$h1;")]).cacheMap) :=
  C20_register_unregister_frame Sample.codec Sample.envUp
    (Sample.withStore [("TestService", "$GRPC$h1;")]) "CacheService" "TestService"
    [("GRPC", "h2")] (by decide)

/-- C16 (the code at the failing input): `TestService` holds the endpoint `$GRPC$h1`; the `Get`
call of `Register` fails and its `Set` call succeeds. `Register` works on the empty list and
writes the new endpoint alone: the endpoint registered before is dropped. -/
theorem C16_failed_get_drops_endpoints :
    storedList Sample.codec (Sample.withStore [("TestService", "$GRPC$h1;")]) "TestService" =
      ["$GRPC$h1"] ∧
    (Register Sample.codec Sample.envGetDown (Sample.withStore [("TestService", "$GRPC$h1;")])
      "TestService" [("GRPC", "h2")]).returned = true ∧
    storedList Sample.codec
      (Register Sample.codec Sample.envGetDown (Sample.withStore [("TestService", "$GRPC$h1;")])
        "TestService" [("GRPC", "h2")]).state "TestService" = ["$GRPC$h2"] ∧
    "$GRPC$h1" ∉ storedList Sample.codec
      (Register Sample.codec Sample.envGetDown (Sample.withStore [("TestService", "$GRPC$h1;")])
        "TestService" [("GRPC", "h2")]).state "TestService" := by
  decide

/-- C15: if the DHT read of the list of a service fails during a liveness sweep, that service
is skipped for the sweep: its pass returns at once, no probe is dispatched for it, the health
cache and the DHT store are as they were, and the sweep goes on with the remaining services.
The codec decodes the empty blob, which a failed read yields, to the empty list. -/
theorem C15_failed_read_skips_service (c : Codec) (env : Env) (st : Servant) (K : String)
    (hde : c.DecodesEmpty) (hfail : env.dhtOk st.chordNode.calls (DhtOp.get K) = false) :
    ∃ st1 : Servant, checkService c env st K = .ok st1 ∧ st1.probes = st.probes ∧
      st1.cacheMap = st.cacheMap ∧ st1.chordNode.store = st.chordNode.store ∧
      ∀ rest : List String,
        forEach (checkService c env) (K :: rest) st = forEach (checkService c env) rest st1 := by
  have hr : readList c env st K = [] := by
    rw [readList_of_decodesEmpty c env hde, hfail]
    simp
  have hcs : checkService c env st K = .ok st.afterCall := by
    rw [checkService_eq, hr]
    rfl
  refine ⟨st.afterCall, hcs, rfl, rfl, rfl, fun rest => ?_⟩
  simp only [forEach, hcs]

/-- C15 (instance): every DHT read fails while `TestService` holds one endpoint. -/
theorem C15_failed_read_skips_service_witness :
    ∃ st1 : Servant,
      checkService Sample.codec Sample.envGetDown
        (Sample.withStore [("TestService", "$GRPC$h1;")]) "TestService" = .ok st1 ∧
      st1.probes = (Sample.withStore [("TestService", "$GRPC$h1;")]).probes ∧
      st1.cacheMap = (Sample.withStore [("TestService", "$GRPC$h1;")]).cacheMap ∧
      st1.chordNode.store = (Sample.withStore [("TestService", "$GRPC$h1;")]).chordNode.store ∧
      forEach (checkService Sample.codec Sample.envGetDown) ["TestService", "CacheService"]
          (Sample.withStore [("TestService", "$GRPC$h1;")]) =
        forEach (checkService Sample.codec Sample.envGetDown) ["CacheService"] st1 := by
  obtain ⟨st1, h1, h2, h3, h4, h5⟩ := C15_failed_read_skips_service Sample.codec
    Sample.envGetDown (Sample.withStore [("TestService", "$GRPC$h1;")]) "TestService"
    Sample.codec_decodesEmpty rfl
  exact ⟨st1, h1, h2, h3, h4, h5 ["CacheService"]⟩

/-! ## The health cache over a sweep -/

/-- A property kept by every run of the body that returns holds when the loop returns. -/
theorem forEach_ok_induct (body : Servant → String → Result) (P : Servant → Prop)
    (l : List String) (st st1 : Servant) (h : forEach body l st = .ok st1) (h0 : P st)
    (hstep : ∀ s a s1, a ∈ l → body s a = .ok s1 → P s → P s1) : P st1 := by
  induction l generalizing st with
  | nil =>
    simp only [forEach] at h
    cases h
    exact h0
  | cons a rest ih =>
    simp only [forEach] at h
    cases hb : body st a with
    | error e =>
      rw [hb] at h
      cases h
    | ok s1 =>
      rw [hb] at h
      exact ih s1 h (hstep st a s1 (List.mem_cons_self _ _) hb h0)
        (fun s b s2 hb2 => hstep s b s2 (List.mem_cons_of_mem _ hb2))

theorem cacheReady_of_probeEndpoint_ok (c : Codec) (env : Env) (K : String) (st st1 : Servant)
    (a : String) (h : probeEndpoint c env K st a = .ok st1) : CacheReady st := by
  unfold CacheReady
  cases hcm : st.cacheMap with
  | some cm => rfl
  | none =>
    exfalso
    unfold probeEndpoint at h
    by_cases hk : K = "TestService" ∨ K = "CacheService"
    · simp only [hk, if_true, hcm] at h
      cases h
    · simp only [hk, if_false, hcm] at h
      cases h

theorem probedStatus_alive_le (b : Bool) (old : Option NodeStatus)
    (h : (probedStatus b old).Alive = true) : (probedStatus b old).FailCount ≤ 1 := by
  unfold probedStatus at h ⊢
  cases b with
  | true => simp
  | false =>
    simp only [Bool.false_eq_true, if_false] at h ⊢
    by_cases h2 : wrapInt ((old.getD ⟨0, true⟩).FailCount + 1) ≥ 2
    · rw [if_pos h2] at h
      cases h
    · rw [if_neg h2]
      show wrapInt ((old.getD ⟨0, true⟩).FailCount + 1) ≤ 1
      omega

/-- After a probe loop that returns, every entry marked alive counts at most one failure and
every entry marked dead belongs to an address of the loop, when the cache was healthy before. -/
theorem probeAll_marks (c : Codec) (env : Env) (K : String) (A : List String)
    (st st2 : Servant) (h : forEach (probeEndpoint c env K) A st = .ok st2)
    (hh : CacheHealthy st) :
    ∀ (u : String) (e : NodeStatus), cacheGet st2 u = some e →
      (e.Alive = true → e.FailCount ≤ 1) ∧ (e.Alive = false → u ∈ A) := by
  refine forEach_ok_induct (probeEndpoint c env K)
    (fun s => ∀ (u : String) (e : NodeStatus), cacheGet s u = some e →
      (e.Alive = true → e.FailCount ≤ 1) ∧ (e.Alive = false → u ∈ A)) A st st2 h ?_ ?_
  · intro u e hu
    have := hh u e hu
    exact ⟨fun _ => this.2, fun hd => by rw [this.1] at hd; cases hd⟩
  · intro s a s1 ha hb hs u e hu
    obtain ⟨s1', h1, _, _, hg⟩ :=
      probeEndpoint_ok c env K s a (cacheReady_of_probeEndpoint_ok c env K s s1 a hb)
    rw [hb] at h1
    cases h1
    rw [hg u] at hu
    by_cases hua : u = a
    · rw [if_pos hua] at hu
      cases hu
      exact ⟨fun hal => probedStatus_alive_le _ _ hal, fun _ => hua ▸ ha⟩
    · rw [if_neg hua] at hu
      exact hs u e hu

/-- After an eviction loop that returns, the cache is healthy when before it every entry marked
alive counted at most one failure and every entry marked dead belonged to an address of the
loop. -/
theorem evictAll_healthy (c : Codec) (env : Env) (K : String) (B : List String)
    (st st1 : Servant) (h : forEach (evictEndpoint c env K) B st = .ok st1)
    (hm : ∀ (u : String) (e : NodeStatus), cacheGet st u = some e →
      (e.Alive = true → e.FailCount ≤ 1) ∧ (e.Alive = false → u ∈ B)) :
    CacheHealthy st1 := by
  induction B generalizing st with
  | nil =>
    simp only [forEach] at h
    cases h
    intro u e hu
    have := hm u e hu
    cases hal : e.Alive with
    | true => exact ⟨rfl, this.1 hal⟩
    | false =>
      have := this.2 hal
      simp at this
  | cons a rest ih =>
    simp only [forEach] at h
    rcases evictEndpoint_cases c env K st a with ⟨_, h1⟩ | ⟨e1, he1, hal1, h1⟩ |
      ⟨e1, s0, he1, hal1, _, hcg, _, h1⟩
    · rw [h1] at h
      cases h
    · rw [h1] at h
      refine ih st h (fun u e hu => ⟨(hm u e hu).1, fun hd => ?_⟩)
      rcases List.mem_cons.mp ((hm u e hu).2 hd) with hua | hur
      · subst hua
        rw [he1] at hu
        cases hu
        rw [hal1] at hd
        cases hd
      · exact hur
    · rw [h1] at h
      refine ih _ h (fun u e hu => ?_)
      rw [cacheGet_congr _ s0 (unregisterFromChord_cacheMap c env s0 K _), hcg u] at hu
      by_cases hua : u = a
      · rw [if_pos hua] at hu
        cases hu
      · rw [if_neg hua] at hu
        refine ⟨(hm u e hu).1, fun hd => ?_⟩
        rcases List.mem_cons.mp ((hm u e hu).2 hd) with h2 | h2
        · exact absurd h2 hua
        · exact h2

/-- A pass over one service that returns leaves the cache healthy when it was healthy. -/
theorem checkService_healthy (c : Codec) (env : Env) (st st1 : Servant) (K : String)
    (h : checkService c env st K = .ok st1) (hh : CacheHealthy st) : CacheHealthy st1 := by
  rw [checkService_eq] at h
  cases hf : forEach (probeEndpoint c env K) (readList c env st K) st.afterCall with
  | error e =>
    rw [hf] at h
    cases h
  | ok st2 =>
    rw [hf] at h
    have hm := probeAll_marks c env K _ st.afterCall st2 hf hh
    exact evictAll_healthy c env K _ st2 st1 h
      (fun u e hu => ⟨(hm u e hu).1, fun hd => List.mem_reverse.mpr ((hm u e hu).2 hd)⟩)

/-- A sweep over services with a map for health cache and duplicate-free lists returns. -/
theorem services_returns (c : Codec) (env : Env) (hde : c.DecodesEmpty)
    (ks : List String) (st : Servant) (hrt : ∀ K, RoundTripsBelow c st K)
    (hc : CacheReady st) (hnd : NoDuplicates c st) :
    ∃ st1 : Servant, forEach (checkService c env) ks st = .ok st1 := by
  induction ks generalizing st with
  | nil => exact ⟨st, rfl⟩
  | cons K rest ih =>
    obtain ⟨s1, h1, hc1, _⟩ := checkService_returns c env st K hc
      (readList_nodup c env hde st K (hnd K))
    have hsub1 : ∀ K1, (storedList c s1 K1).Sublist (storedList c st K1) := fun K1 => by
      have := checkService_sublist c env hde st K (hrt K) K1
      rw [h1, state_ok] at this
      exact this
    obtain ⟨s2, h2⟩ := ih s1 (fun K1 => roundTripsBelow_mono c st s1 K1 (hrt K1) (hsub1 K1)) hc1
      (fun K1 => (hnd K1).sublist (hsub1 K1))
    exact ⟨s2, by simp only [forEach, h1, h2]⟩

theorem IsAliveCheck_returns (c : Codec) (env : Env)
    (hde : c.DecodesEmpty) (st : Servant) (hrt : ∀ K, RoundTripsBelow c st K)
    (hc : CacheReady st) (hnd : NoDuplicates c st)
    (hkeys : env.dhtOk st.chordNode.calls DhtOp.getAllKeys = true) :
    ∃ st1 : Servant, IsAliveCheck c env st = .ok st1 := by
  rw [IsAliveCheck_eq, if_pos hkeys]
  exact services_returns c env hde _ st.afterCall hrt hc hnd

/-- C17: if before a sweep every health-cache entry has `Alive = true` and `FailCount <= 1` (in
particular when the cache is empty), then after the sweep, for every combination of probe
results and DHT call outcomes, every health-cache entry again has `Alive = true` and
`FailCount <= 1`; the same holds after each per-service pass, so an entry with `Alive = false`
never survives the pass in which it was marked. The sweep does return when the key listing
succeeds on a servant with a map for health cache and duplicate-free lists. -/
theorem C17_cache_healthy_invariant (c : Codec) (env : Env) (st : Servant)
    (hh : CacheHealthy st) :
    (∀ st1 : Servant, IsAliveCheck c env st = .ok st1 → CacheHealthy st1) ∧
    (∀ (K : String) (st1 : Servant), checkService c env st K = .ok st1 → CacheHealthy st1) ∧
    (c.ListRoundTrip → c.DecodesEmpty → CacheReady st → NoDuplicates c st →
      env.dhtOk st.chordNode.calls DhtOp.getAllKeys = true →
      ∃ st1 : Servant, IsAliveCheck c env st = .ok st1 ∧ CacheHealthy st1) := by
  have hsweep : ∀ st1 : Servant, IsAliveCheck c env st = .ok st1 → CacheHealthy st1 := by
    intro st1 h
    rw [IsAliveCheck_eq] at h
    split at h
    · exact forEach_ok_induct (checkService c env) CacheHealthy _ st.afterCall st1 h hh
        (fun s a s1 _ hb hs => checkService_healthy c env s s1 a hb hs)
    · cases h
  refine ⟨hsweep, fun K st1 h => checkService_healthy c env st st1 K h hh, ?_⟩
  intro hrt hde hc hnd hkeys
  obtain ⟨st1, h1⟩ := IsAliveCheck_returns c env hde st (roundTripsBelow_of_roundTrip c hrt st)
    hc hnd hkeys
  exact ⟨st1, h1, hsweep st1 h1⟩

/-- C17 (instance): a sweep with failing probes from an empty cache. -/
theorem C17_cache_healthy_invariant_witness :
    ∃ st1 : Servant,
      IsAliveCheck Sample.codec Sample.envDown
        (Sample.withStore [("TestService", "$GRPC$h1;")]) = .ok st1 ∧ CacheHealthy st1 :=
  (C17_cache_healthy_invariant Sample.codec Sample.envDown
    (Sample.withStore [("TestService", "$GRPC$h1;")]) (fun _ _ h => by cases h)).2.2
    Sample.codec_roundTrip Sample.codec_decodesEmpty rfl
    (Sample.noDuplicates_single _ _ (by decide)) rfl

/-! ## Nil dereferences -/

theorem probeEndpoint_crash (c : Codec) (env : Env) (K : String) (st : Servant) (a : String) :
    (probeEndpoint c env K st a).crash = none ∨
      (probeEndpoint c env K st a).crash = some Crash.nilMapWrite := by
  cases hcm : st.cacheMap with
  | some cm =>
    obtain ⟨s1, h1, _⟩ := probeEndpoint_ok c env K st a (by simp [CacheReady, hcm])
    rw [h1]
    exact Or.inl rfl
  | none =>
    right
    unfold probeEndpoint
    by_cases hk : K = "TestService" ∨ K = "CacheService"
    · simp only [hk, if_true, hcm]
      rfl
    · simp only [hk, if_false, hcm]
      rfl

theorem probeAll_crash (c : Codec) (env : Env) (K : String) (A : List String) (st : Servant) :
    (forEach (probeEndpoint c env K) A st).crash = none ∨
      (forEach (probeEndpoint c env K) A st).crash = some Crash.nilMapWrite := by
  induction A generalizing st with
  | nil => exact Or.inl rfl
  | cons a rest ih =>
    simp only [forEach]
    have h := probeEndpoint_crash c env K st a
    cases hb : probeEndpoint c env K st a with
    | ok s1 => exact ih s1
    | error e =>
      rw [hb] at h
      rcases h with h | h
      · cases h
      · exact Or.inr h

/-- The pass over one service whose decoded list is duplicate-free never stops on a nil
dereference, whatever the health cache. -/
theorem checkService_no_nilDeref (c : Codec) (env : Env) (st : Servant) (K : String)
    (hnd : (readList c env st K).Nodup) :
    (checkService c env st K).crash ≠ some Crash.nilDeref := by
  rw [checkService_eq]
  have hp := probeAll_crash c env K (readList c env st K) st.afterCall
  cases hf : forEach (probeEndpoint c env K) (readList c env st K) st.afterCall with
  | error e =>
    rw [hf] at hp
    rcases hp with hp | hp
    · cases hp
    · show Result.crash (.error e) ≠ _
      rw [hp]
      simp
  | ok st2 =>
    show (forEach (evictEndpoint c env K) (readList c env st K).reverse st2).crash ≠ _
    by_cases hA : readList c env st K = []
    · rw [hA]
      simp [forEach, Result.crash]
    · obtain ⟨a, ha⟩ := List.exists_mem_of_ne_nil _ hA
      have hc : CacheReady st.afterCall := by
        obtain ⟨pre, post, hsplit⟩ := List.append_of_mem ha
        rw [hsplit, forEach_append] at hf
        cases hpre : forEach (probeEndpoint c env K) pre st.afterCall with
        | error e =>
          rw [hpre] at hf
          cases hf
        | ok s1 =>
          rw [hpre] at hf
          simp only [forEach] at hf
          cases hb : probeEndpoint c env K s1 a with
          | error e =>
            rw [hb] at hf
            cases hf
          | ok s2 =>
            have hc1 := cacheReady_of_probeEndpoint_ok c env K s1 s2 a hb
            by_contra hnc
            have hnone : st.afterCall.cacheMap = none := by
              unfold CacheReady at hnc
              cases hcm : st.afterCall.cacheMap with
              | none => rfl
              | some cm => rw [hcm] at hnc; simp at hnc
            cases pre with
            | nil =>
              simp only [forEach] at hpre
              cases hpre
              exact hnc hc1
            | cons b pre2 =>
              simp only [forEach] at hpre
              have hcr := probeEndpoint_crash c env K st.afterCall b
              cases hb2 : probeEndpoint c env K st.afterCall b with
              | error e =>
                rw [hb2] at hpre
                cases hpre
              | ok s3 =>
                exact hnc (cacheReady_of_probeEndpoint_ok c env K st.afterCall s3 b hb2)
      obtain ⟨st2', hf2, _, _, _, hsome2, _⟩ :=
        probeAll_ok c env K (readList c env st K) st.afterCall hc
      rw [hf] at hf2
      cases hf2
      obtain ⟨st1, he, _⟩ := evictAll_ok c env K _ st2 (List.nodup_reverse.mpr hnd)
        (fun u hu => hsome2 u (List.mem_reverse.mp hu))
      rw [he]
      simp [Result.crash]

/-- C18: within a liveness sweep every health-cache dereference hits an existing entry, in the
probe pass and in the eviction pass that deletes entries while scanning, provided the decoded
list of the service has no duplicate tokens: the pass over such a service never stops on a nil
`*NodeStatus`, whatever the health cache and the outcomes of the probes and DHT calls; neither
does a whole sweep over duplicate-free stored lists. -/
theorem C18_no_nil_dereference (c : Codec) (env : Env) (st : Servant) :
    (∀ K : String, (readList c env st K).Nodup →
      (checkService c env st K).crash ≠ some Crash.nilDeref) ∧
    (c.ListRoundTrip → c.DecodesEmpty → NoDuplicates c st →
      (IsAliveCheck c env st).crash ≠ some Crash.nilDeref) := by
  refine ⟨fun K h => checkService_no_nilDeref c env st K h, ?_⟩
  intro hrt hde hnd
  rw [IsAliveCheck_eq]
  split
  · have key : ∀ (ks : List String) (s : Servant), NoDuplicates c s →
        (forEach (checkService c env) ks s).crash ≠ some Crash.nilDeref := by
      intro ks
      induction ks with
      | nil => intro s _; simp [forEach, Result.crash]
      | cons K rest ih =>
        intro s hs
        have h1 := checkService_no_nilDeref c env s K (readList_nodup c env hde s K (hs K))
        simp only [forEach]
        cases hb : checkService c env s K with
        | error e =>
          rw [hb] at h1
          exact h1
        | ok s1 =>
          refine ih s1 (fun K1 => (hs K1).sublist ?_)
          have := checkService_sublist c env hde s K (roundTripsBelow_of_roundTrip c hrt s K)
            K1
          rw [hb, state_ok] at this
          exact this
    exact key _ st.afterCall hnd
  · simp [Result.crash]

/-- C18 (instance): the pass over `TestService` on a servant with a nil health cache, and a
sweep with failing probes over a duplicate-free list. -/
theorem C18_no_nil_dereference_witness :
    (checkService Sample.codec Sample.envDown
        { Sample.withStore [("TestService", "$GRPC$h1;")] with cacheMap := none }
        "TestService").crash ≠ some Crash.nilDeref ∧
    (IsAliveCheck Sample.codec Sample.envDown
      (Sample.withStore [("TestService", "$GRPC$h1;$GRPC$h2;")])).crash ≠
      some Crash.nilDeref :=
  ⟨(C18_no_nil_dereference Sample.codec Sample.envDown
      { Sample.withStore [("TestService", "$GRPC$h1;")] with cacheMap := none }).1
      "TestService" (by decide),
    (C18_no_nil_dereference Sample.codec Sample.envDown
      (Sample.withStore [("TestService", "$GRPC$h1;$GRPC$h2;")])).2
      Sample.codec_roundTrip Sample.codec_decodesEmpty
      (Sample.noDuplicates_single _ _ (by decide))⟩

/-! ## Successful probes and multi-eviction -/

theorem markedDead_congr (s1 s2 : Servant) (u : String) (h : cacheGet s1 u = cacheGet s2 u) :
    markedDead s1 u = markedDead s2 u := by
  unfold markedDead
  rw [h]

/-- With succeeding DHT calls, the eviction loop over a duplicate-free list of stable tokens
that all have a cache entry returns, and the stored list of the service is then the list
before without the addresses of the loop that were marked dead. -/
theorem evictAll_filter (c : Codec) (env : Env) (hde : c.DecodesEmpty)
    (hok : env.DhtSucceeds) (K : String) (B : List String) (st : Servant)
    (hrt : RoundTripsBelow c st K) (hnd : B.Nodup)
    (hsome : ∀ u, u ∈ B → (cacheGet st u).isSome = true)
    (hlist : (storedList c st K).Nodup) (hstab : ∀ u, u ∈ B → c.Stable u) :
    ∃ st1 : Servant, forEach (evictEndpoint c env K) B st = .ok st1 ∧
      storedList c st1 K =
        (storedList c st K).filter (fun u => !(decide (u ∈ B) && markedDead st u)) := by
  induction B generalizing st with
  | nil =>
    refine ⟨st, rfl, ?_⟩
    simp
  | cons a rest ih =>
    have hnr : rest.Nodup := (List.nodup_cons.mp hnd).2
    have har : a ∉ rest := (List.nodup_cons.mp hnd).1
    have hsa := hsome a (List.mem_cons_self _ _)
    rcases evictEndpoint_cases c env K st a with ⟨hn, _⟩ | ⟨e, he, hal, h⟩ |
      ⟨e, s0, he, hal, hch, hcg, _, h⟩
    · rw [hn] at hsa
      simp at hsa
    · obtain ⟨st1, h1, hl1⟩ := ih st hrt hnr (fun u hu => hsome u (List.mem_cons_of_mem _ hu))
        hlist (fun u hu => hstab u (List.mem_cons_of_mem _ hu))
      refine ⟨st1, by simp only [forEach, h, h1], ?_⟩
      rw [hl1]
      apply List.filter_congr
      intro u _
      by_cases hua : u = a
      · subst hua
        have hd : markedDead st u = false := by
          unfold markedDead
          rw [he]
          simp [hal]
        simp [har, hd]
      · simp [hua]
    · have hcg1 : ∀ u, u ≠ a →
          cacheGet (unregisterFromChord c env s0 K (c.decodeProtocols a)) u = cacheGet st u := by
        intro u hu
        rw [cacheGet_congr _ s0 (unregisterFromChord_cacheMap c env s0 K _), hcg u, if_neg hu]
      have hl0 : storedList c (unregisterFromChord c env s0 K (c.decodeProtocols a)) K =
          (storedList c st K).erase a := by
        rw [storedList_unregisterFromChord_ok c env hde hok s0 K
            (roundTripsBelow_congr c st s0 K hrt hch),
          hstab a (List.mem_cons_self _ _), storedList_congr_chordNode c s0 st hch]
      have hrt1 : RoundTripsBelow c (unregisterFromChord c env s0 K (c.decodeProtocols a)) K :=
        roundTripsBelow_mono c st _ K hrt (by
          have := evictEndpoint_sublist c env hde K K st hrt a
          rw [h, state_ok] at this
          exact this)
      obtain ⟨st1, h1, hl1⟩ := ih (unregisterFromChord c env s0 K (c.decodeProtocols a)) hrt1
        hnr
        (fun u hu => by
          rw [hcg1 u (fun e2 => har (e2 ▸ hu))]
          exact hsome u (List.mem_cons_of_mem _ hu))
        (by rw [hl0]; exact hlist.erase a)
        (fun u hu => hstab u (List.mem_cons_of_mem _ hu))
      refine ⟨st1, by simp only [forEach, h, h1], ?_⟩
      rw [hl1, hl0, hlist.erase_eq_filter, List.filter_filter]
      apply List.filter_congr
      intro u _
      by_cases hua : u = a
      · subst hua
        have hd : markedDead st u = true := by
          unfold markedDead
          rw [he]
          simp [hal]
        simp [hd]
      · rw [markedDead_congr _ st u (hcg1 u hua)]
        simp [hua]

theorem unregisterFromChord_key_nonEmpty (c : Codec) (env : Env) (hde : c.DecodesEmpty)
    (s : Servant) (S : String) (hrt : RoundTripsBelow c s S) (d : NodeAddresses) (k : String)
    (h : ∀ v, List.lookup k s.chordNode.store = some v → c.decodeStrings v ≠ []) :
    ∀ v, List.lookup k (unregisterFromChord c env s S d).chordNode.store = some v →
      c.decodeStrings v ≠ [] := by
  intro v
  rw [unregisterFromChord_store c env hde]
  split_ifs with h1 h2 h3 h4
  · rw [lookup_storeDelete]
    split
    · intro hv
      cases hv
    · exact h v
  · exact h v
  · rw [lookup_storeSet]
    split
    · intro hv
      cases hv
      rw [hrt _ (List.erase_sublist _ _)]
      exact h2
    · exact h v
  · exact h v
  · exact h v

theorem evictEndpoint_key_nonEmpty (c : Codec) (env : Env) (hde : c.DecodesEmpty)
    (K : String) (s : Servant) (hrt : RoundTripsBelow c s K) (a k : String)
    (h : ∀ v, List.lookup k s.chordNode.store = some v → c.decodeStrings v ≠ []) :
    ∀ v, List.lookup k (evictEndpoint c env K s a).state.chordNode.store = some v →
      c.decodeStrings v ≠ [] := by
  rcases evictEndpoint_cases c env K s a with ⟨_, h1⟩ | ⟨e, _, _, h1⟩ |
    ⟨e, s0, _, _, hch, _, _, h1⟩
  · rw [h1]
    exact h
  · rw [h1]
    exact h
  · rw [h1, state_ok]
    exact unregisterFromChord_key_nonEmpty c env hde s0 K
      (roundTripsBelow_congr c s s0 K hrt hch) _ k (by rw [hch]; exact h)

/-- C14 (amended): for every service S whose stored list L is duplicate-free and made of
tokens a that the codec gives back from their descriptor (`encodeProtocols (decodeProtocols a)
= a`), with a codec that decodes the empty blob to the empty list and round-trips every sublist
of L, on a servant whose health cache is a map: when the DHT calls succeed and the
probe pass of the sweep leaves endpoints of L marked `Alive = false`, however many, the
reverse-order eviction pass removes every one of them: the pass returns, afterwards the stored
list is L restricted to the endpoints not marked dead, in their original relative order (the
key is deleted if none remain), and the cache entries of all removed endpoints are gone. -/
theorem C14_multi_eviction (c : Codec) (env : Env) (st : Servant) (S : String)
    (hde : c.DecodesEmpty) (hrt : RoundTripsBelow c st S) (hok : env.DhtSucceeds)
    (hc : CacheReady st) (hlist : (storedList c st S).Nodup)
    (hstab : ∀ u, u ∈ storedList c st S → c.Stable u) :
    ∃ st2 st3 : Servant,
      forEach (probeEndpoint c env S) (storedList c st S) st.afterCall = .ok st2 ∧
      checkService c env st S = .ok st3 ∧
      storedList c st3 S = (storedList c st S).filter (fun u => !markedDead st2 u) ∧
      (storedList c st S ≠ [] →
        (storedList c st S).filter (fun u => !markedDead st2 u) = [] →
        present st3 S = false) ∧
      (∀ u, u ∈ storedList c st S → markedDead st2 u = true → cacheGet st3 u = none) := by
  have hr : readList c env st S = storedList c st S := by
    rw [readList_of_decodesEmpty c env hde, if_pos (hok _ _)]
  have hca : CacheReady st.afterCall := hc
  obtain ⟨st2, hf, hch2, _, _, hsome2, _⟩ :=
    probeAll_ok c env S (storedList c st S) st.afterCall hca
  have hsl2 : storedList c st2 S = storedList c st S := by
    rw [storedList_congr_chordNode c st2 st.afterCall hch2, storedList_afterCall]
  have hrt2 : RoundTripsBelow c st2 S := roundTripsBelow_congr c st.afterCall st2 S hrt hch2
  have hndr : (storedList c st S).reverse.Nodup := List.nodup_reverse.mpr hlist
  have hsomer : ∀ u, u ∈ (storedList c st S).reverse → (cacheGet st2 u).isSome = true :=
    fun u hu => hsome2 u (List.mem_reverse.mp hu)
  obtain ⟨st3, he, hl3⟩ := evictAll_filter c env hde hok S _ st2 hrt2 hndr hsomer
    (by rw [hsl2]; exact hlist) (fun u hu => hstab u (List.mem_reverse.mp hu))
  obtain ⟨st3', he', hev⟩ := evictAll_ok c env S _ st2 hndr hsomer
  rw [he] at he'
  cases he'
  have hfilter : storedList c st3 S =
      (storedList c st S).filter (fun u => !markedDead st2 u) := by
    rw [hl3, hsl2]
    apply List.filter_congr
    intro u hu
    simp [hu]
  refine ⟨st2, st3, hf, ?_, hfilter, ?_, ?_⟩
  · rw [checkService_eq, hr]
    simp only [hf]
    exact he
  · intro hne hempty
    have hkey : ∀ v, List.lookup S st3.chordNode.store = some v → c.decodeStrings v ≠ [] := by
      have := forEach_state_induct (evictEndpoint c env S)
        (fun s => (∀ K1, (storedList c s K1).Sublist (storedList c st2 K1)) ∧
          ∀ v, List.lookup S s.chordNode.store = some v → c.decodeStrings v ≠ [])
        (storedList c st S).reverse st2
        ⟨fun _ => List.Sublist.refl _, by
          intro v hv
          have : storedList c st2 S = c.decodeStrings v := by
            unfold storedList
            rw [hv]
          rw [← this, hsl2]
          exact hne⟩
        (fun s a _ hs =>
          ⟨fun K1 => (evictEndpoint_sublist c env hde S K1 s
              (roundTripsBelow_mono c st2 s S hrt2 (hs.1 S)) a).trans (hs.1 K1),
            evictEndpoint_key_nonEmpty c env hde S s
              (roundTripsBelow_mono c st2 s S hrt2 (hs.1 S)) a S hs.2⟩)
      rw [he, state_ok] at this
      exact this.2
    rw [← hfilter] at hempty
    unfold present
    cases hl : List.lookup S st3.chordNode.store with
    | none => rfl
    | some v =>
      exfalso
      apply hkey v hl
      unfold storedList at hempty
      rw [hl] at hempty
      exact hempty
  · intro u hu hd
    unfold markedDead at hd
    cases hg : cacheGet st2 u with
    | none =>
      rw [hg] at hd
      cases hd
    | some e =>
      rw [hg] at hd
      have hal : e.Alive = false := by simpa using hd
      rw [hev u (List.mem_reverse.mpr hu) e hg, hal]
      simp

/-- C14 (instance): both endpoints of `CacheService` carry one failure and fail again, with
the codec of the specification and the list delimiter `,`. -/
theorem C14_multi_eviction_witness :
    ∃ st2 st3 : Servant,
      forEach (probeEndpoint (Spec.codec ',') Sample.envDown "CacheService")
        (storedList (Spec.codec ',') (IsAliveCheck (Spec.codec ',') Sample.envDown
          (Sample.withStore [("CacheService", "$GRPC$h1,$GRPC$h2")])).state "CacheService")
        (IsAliveCheck (Spec.codec ',') Sample.envDown
          (Sample.withStore [("CacheService", "$GRPC$h1,$GRPC$h2")])).state.afterCall
        = .ok st2 ∧
      checkService (Spec.codec ',') Sample.envDown
        (IsAliveCheck (Spec.codec ',') Sample.envDown
          (Sample.withStore [("CacheService", "$GRPC$h1,$GRPC$h2")])).state "CacheService"
        = .ok st3 ∧
      storedList (Spec.codec ',') st3 "CacheService" =
        (storedList (Spec.codec ',') (IsAliveCheck (Spec.codec ',') Sample.envDown
          (Sample.withStore [("CacheService", "$GRPC$h1,$GRPC$h2")])).state
          "CacheService").filter (fun u => !markedDead st2 u) ∧
      (storedList (Spec.codec ',') (IsAliveCheck (Spec.codec ',') Sample.envDown
          (Sample.withStore [("CacheService", "$GRPC$h1,$GRPC$h2")])).state
          "CacheService" ≠ [] →
        (storedList (Spec.codec ',') (IsAliveCheck (Spec.codec ',') Sample.envDown
          (Sample.withStore [("CacheService", "$GRPC$h1,$GRPC$h2")])).state
          "CacheService").filter (fun u => !markedDead st2 u) = [] →
        present st3 "CacheService" = false) ∧
      (∀ u, u ∈ storedList (Spec.codec ',') (IsAliveCheck (Spec.codec ',') Sample.envDown
          (Sample.withStore [("CacheService", "$GRPC$h1,$GRPC$h2")])).state "CacheService" →
        markedDead st2 u = true → cacheGet st3 u = none) :=
  C14_multi_eviction (Spec.codec ',') Sample.envDown
    (IsAliveCheck (Spec.codec ',') Sample.envDown
      (Sample.withStore [("CacheService", "$GRPC$h1,$GRPC$h2")])).state "CacheService"
    (Spec.codec_emptyBlob ',')
    (roundTripsBelow_mono (Spec.codec ',') _ _ "CacheService"
      (Spec.roundTripsBelow_single ',' _ _ (by decide) _)
      (IsAliveCheck_sublist (Spec.codec ',') Sample.envDown (Spec.codec_emptyBlob ',') _
        (Spec.roundTripsBelow_single ',' _ _ (by decide)) "CacheService"))
    Sample.envDown_succeeds
    (by unfold CacheReady; decide) (by decide) (by unfold Codec.Stable; decide)

/-- C14 (as stated, refuted): `CacheService` holds two endpoints, every probe fails and every
`Set` call fails. In the second sweep the probe pass marks both endpoints dead and the eviction
pass deletes both cache entries, but the stored list still holds both endpoints. And with the
list codec of the specification and succeeding DHT calls, on the list of `TestService` built by
`Register` of `$GRPC$h1` and `$GRPC$h2`, one sweep in which their probes fail, and `Register`
of the descriptor without protocols: the next sweep marks `$GRPC$h1` and `$GRPC$h2` dead and
leaves the empty token alive; the eviction pass ends by writing the list holding the empty
token, whose blob decodes to the empty list, so the stored list is empty under a present key,
not the list restricted to the endpoint still marked alive. -/
theorem C14_failed_set_counterexample :
    (IsAliveCheckTicks Sample.codec Sample.envSetDown 2
      (Sample.withStore [("CacheService", "$GRPC$h1;$GRPC$h2;")])).returned = true ∧
    markedDead (forEach (probeEndpoint Sample.codec Sample.envSetDown "CacheService")
      ["$GRPC$h1", "$GRPC$h2"]
      (IsAliveCheckTicks Sample.codec Sample.envSetDown 1
        (Sample.withStore [("CacheService", "$GRPC$h1;$GRPC$h2;")])).state.afterCall.afterCall
      ).state "$GRPC$h1" = true ∧
    markedDead (forEach (probeEndpoint Sample.codec Sample.envSetDown "CacheService")
      ["$GRPC$h1", "$GRPC$h2"]
      (IsAliveCheckTicks Sample.codec Sample.envSetDown 1
        (Sample.withStore [("CacheService", "$GRPC$h1;$GRPC$h2;")])).state.afterCall.afterCall
      ).state "$GRPC$h2" = true ∧
    storedList Sample.codec (IsAliveCheckTicks Sample.codec Sample.envSetDown 2
      (Sample.withStore [("CacheService", "$GRPC$h1;$GRPC$h2;")])).state "CacheService" =
      ["$GRPC$h1", "$GRPC$h2"] ∧
    cacheGet (IsAliveCheckTicks Sample.codec Sample.envSetDown 2
      (Sample.withStore [("CacheService", "$GRPC$h1;$GRPC$h2;")])).state "$GRPC$h1" = none ∧
    cacheGet (IsAliveCheckTicks Sample.codec Sample.envSetDown 2
      (Sample.withStore [("CacheService", "$GRPC$h1;$GRPC$h2;")])).state "$GRPC$h2" = none ∧
    Sample.envDown.DhtSucceeds ∧
    storedList (Spec.codec ',')
      (Sample.sweptThenEmpty Sample.envDown [[("GRPC", "h1")], [("GRPC", "h2")]])
      "TestService" = ["$GRPC$h1", "$GRPC$h2", ""] ∧
    (forEach (probeEndpoint (Spec.codec ',') Sample.envDown "TestService")
      ["$GRPC$h1", "$GRPC$h2", ""]
      (Sample.sweptThenEmpty Sample.envDown
        [[("GRPC", "h1")], [("GRPC", "h2")]]).afterCall).returned = true ∧
    ["$GRPC$h1", "$GRPC$h2", ""].map
      (markedDead (forEach (probeEndpoint (Spec.codec ',') Sample.envDown "TestService")
        ["$GRPC$h1", "$GRPC$h2", ""]
        (Sample.sweptThenEmpty Sample.envDown
          [[("GRPC", "h1")], [("GRPC", "h2")]]).afterCall).state) = [true, true, false] ∧
    (checkService (Spec.codec ',') Sample.envDown
      (Sample.sweptThenEmpty Sample.envDown [[("GRPC", "h1")], [("GRPC", "h2")]])
      "TestService").returned = true ∧
    storedList (Spec.codec ',') (checkService (Spec.codec ',') Sample.envDown
      (Sample.sweptThenEmpty Sample.envDown [[("GRPC", "h1")], [("GRPC", "h2")]])
      "TestService").state "TestService" = [] ∧
    present (checkService (Spec.codec ',') Sample.envDown
      (Sample.sweptThenEmpty Sample.envDown [[("GRPC", "h1")], [("GRPC", "h2")]])
      "TestService").state "TestService" = true :=
  ⟨by decide, by decide, by decide, by decide, by decide, by decide, Sample.envDown_succeeds,
    by decide, by decide, by decide, by decide, by decide, by decide⟩

/-! ## The list codec round trip -/

/-- C12 (amended): for every ordered sequence L of encoded endpoints that are free of the list
delimiter, other than the one-element sequence holding the empty token, and including the
empty sequence, `decodeStrings (encodeStrings L)` equals L. -/
theorem C12_list_round_trip (sep : Char) (L : List String)
    (hsep : ∀ t, t ∈ L → sep ∉ t.data) (hne : L ≠ [""]) :
    Spec.decodeStrings sep (Spec.encodeStrings sep L) = L := by
  unfold Spec.encodeStrings
  rw [Spec.decodeStrings_mk]
  by_cases hj : Spec.joinChars sep (L.map String.data) = []
  · rw [if_pos hj]
    rcases Spec.joinChars_eq_nil sep _ hj with h | h
    · simpa using h.symm
    · exfalso
      apply hne
      cases L with
      | nil => simp at h
      | cons t rest =>
        simp only [List.map_cons, List.cons.injEq, List.map_eq_nil_iff] at h
        rw [h.2, Spec.data_eq_nil t h.1]
  · rw [if_neg hj]
    have hL : L.map String.data ≠ [] := by
      intro h
      rw [h] at hj
      exact hj rfl
    rw [Spec.splitChars_joinChars sep _ hL (by
      intro t ht
      obtain ⟨s, hs, rfl⟩ := List.mem_map.mp ht
      exact hsep s hs)]
    rw [List.map_map]
    conv_rhs => rw [← List.map_id L]
    apply List.map_congr_left
    intro s _
    rfl

/-- C12 (instance): two tokens and the delimiter `,`. -/
theorem C12_list_round_trip_witness :
    Spec.decodeStrings ',' (Spec.encodeStrings ',' ["$GRPC$10.0.0.1:9000", "$GRPC$10.0.0.2:9000"])
      = ["$GRPC$10.0.0.1:9000", "$GRPC$10.0.0.2:9000"] :=
  C12_list_round_trip ',' ["$GRPC$10.0.0.1:9000", "$GRPC$10.0.0.2:9000"] (by decide) (by decide)

/-- C12 (as stated, refuted): the encoding of the descriptor without protocols is the empty
token, and the one-element sequence holding it is encoded to the empty blob, which decodes to
the empty sequence; the encoding of a descriptor whose address holds the list delimiter
decodes to two tokens. -/
theorem C12_round_trip_counterexample :
    Spec.encodeProtocols [] = "" ∧
    Spec.decodeStrings ',' (Spec.encodeStrings ',' [Spec.encodeProtocols []]) = [] ∧
    Spec.decodeStrings ',' (Spec.encodeStrings ',' [Spec.encodeProtocols []]) ≠
      [Spec.encodeProtocols []] ∧
    Spec.decodeStrings ',' (Spec.encodeStrings ',' [Spec.encodeProtocols [("GRPC", "h1,h2")]]) =
      ["$GRPC$h1", "h2"] := by
  decide

/-! ## Start-up -/

/-- C19 (the code at the failing input): in a fresh process `InitServant` returns for the
joining name `node2` and leaves the health cache a nil map, while for the founding name `root`
it makes the map; on the joining node the first sweep that meets an endpoint stops on the
assignment to an entry of the nil map. -/
theorem C19_joining_node_nil_cache :
    (InitServant Sample.bootOk Sample.unstarted "node2").returned = true ∧
    (InitServant Sample.bootOk Sample.unstarted "node2").state.cacheMap.isSome = false ∧
    (InitServant Sample.bootOk Sample.unstarted "root").returned = true ∧
    (InitServant Sample.bootOk Sample.unstarted "root").state.cacheMap.isSome = true ∧
    storedList Sample.codec (InitServant Sample.bootOk Sample.unstarted "node2").state
      "TestService" = ["$GRPC$h1"] ∧
    (IsAliveCheck Sample.codec Sample.envUp
      (InitServant Sample.bootOk Sample.unstarted "node2").state).crash =
      some Crash.nilMapWrite := by
  decide

/-- For a founding node that gets through `NewChord`, `InitServant` leaves a map for health
cache; for a joining node it leaves the health cache as it found it. -/
theorem InitServant_cacheMap (boot : Boot) (g : Servant) (chord_name : String) :
    (chord_name = "root" → boot.newChordOk = true →
      (InitServant boot g chord_name).state.cacheMap.isSome = true) ∧
    (chord_name ≠ "root" → (InitServant boot g chord_name).state.cacheMap = g.cacheMap) := by
  unfold InitServant
  constructor
  · intro h1 h2
    simp only [h1, h2, if_true]
    split <;> rfl
  · intro h1
    simp only [h1, if_false]
    split
    · split <;> rfl
    · rfl

end RegServiceServant
